import Mathlib

/-!
# Verification of the hybrid product-extraction pipeline

A shallow embedding, in Lean 4, of the core logic of the product-extraction
repository (`html_parser.py`, `image_processor.py`, `models.py`, `main.py`),
together with theorems settling the frozen specification claims.

Modelling conventions:

* Parsed JSON values (the output of Python's `json.loads`) are modelled by the
  inductive type `Json`; Python numbers (int and float alike) are modelled as
  exact rationals, dicts as ordered association lists (CPython dicts preserve
  insertion order; updating an existing key keeps its position).
* Python strings are Lean `String`s; all of the string primitives used by the
  source (`strip`, `lower`, `split`, substring tests, `urllib.parse.urlparse`,
  the finitely many `re` patterns the source uses) are re-implemented here by
  structural recursion over `List Char`, so that every definition evaluates
  inside the kernel.  The re-implementations cover the ASCII behaviour of the
  Python originals, which is the alphabet every constant of the source uses.
* Code that can raise a Python exception on some inputs (attribute errors on
  non-dict values, iteration over non-iterables, `KeyError`) is embedded in
  `Except String`, with the error string naming the exception class.
* Library boundaries that are not part of this repository (BeautifulSoup HTML
  parsing, trafilatura distillation, the network, and the external reasoning
  call) enter the model as function arguments: e.g. `extract_metadata`'s
  JSON-LD harvesting is a function of the per-script-block parse outcomes, and
  `run_pipeline` takes the outcome of each of its awaited branches.
-/

/-! ## Python string primitives (ASCII model, structural recursion) -/

/-- The ASCII whitespace characters recognised by Python's `str.strip()` and
`str.split()` (space, tab, newline, carriage return, vertical tab, form feed). -/
def pyWsChar (c : Char) : Bool :=
  c = ' ' || c = '\t' || c = '\n' || c = '\r' || c = '\x0b' || c = '\x0c'

/-- `str.strip()` on a character list: drop leading and trailing whitespace. -/
def pyStripChars (cs : List Char) : List Char :=
  ((cs.dropWhile pyWsChar).reverse.dropWhile pyWsChar).reverse

/-- Python `str.strip()` (ASCII whitespace). -/
def pyStrip (s : String) : String :=
  String.mk (pyStripChars s.data)

/-- ASCII `str.lower()` on one character. -/
def pyLowerChar (c : Char) : Char :=
  if 'A' ≤ c ∧ c ≤ 'Z' then Char.ofNat (c.toNat + 32) else c

/-- ASCII `str.upper()` on one character. -/
def pyUpperChar (c : Char) : Char :=
  if 'a' ≤ c ∧ c ≤ 'z' then Char.ofNat (c.toNat - 32) else c

/-- Python `str.lower()` (ASCII). -/
def pyLower (s : String) : String :=
  String.mk (s.data.map pyLowerChar)

/-- Python `str.upper()` (ASCII). -/
def pyUpper (s : String) : String :=
  String.mk (s.data.map pyUpperChar)

/-- Split a character list at every occurrence of the separator character,
keeping empty pieces, exactly like Python's `str.split(sep)`. -/
def splitOnChar (sep : Char) : List Char → List Char → List (List Char)
  | [], acc => [acc.reverse]
  | c :: cs, acc =>
    if c = sep then acc.reverse :: splitOnChar sep cs []
    else splitOnChar sep cs (c :: acc)

/-- Python `s.split(sep)` for a one-character separator. -/
def pySplitOn (s : String) (sep : Char) : List String :=
  (splitOnChar sep s.data []).map String.mk

/-- Whitespace-splitting worker for Python's no-argument `str.split()`:
runs of whitespace separate tokens, empty tokens are dropped. -/
def pyWordsAux : List Char → List Char → List String
  | [], acc => if acc.isEmpty then [] else [String.mk acc.reverse]
  | c :: cs, acc =>
    if pyWsChar c then
      if acc.isEmpty then pyWordsAux cs []
      else String.mk acc.reverse :: pyWordsAux cs []
    else pyWordsAux cs (c :: acc)

/-- Python `str.split()` with no argument. -/
def pyWords (s : String) : List String :=
  pyWordsAux s.data []

/-- Substring test on character lists (Python's `needle in haystack`). -/
def listContains (needle : List Char) : List Char → Bool
  | [] => needle.isEmpty
  | c :: cs => needle.isPrefixOf (c :: cs) || listContains needle cs

/-- Python's `sub in s` substring test. -/
def pyContains (s sub : String) : Bool :=
  listContains sub.data s.data

/-- Leading run of decimal digits of a character list, with the rest. -/
def digitRun : List Char → List Char × List Char
  | [] => ([], [])
  | c :: cs =>
    if c.isDigit then
      let (run, rest) := digitRun cs
      (c :: run, rest)
    else ([], c :: cs)

/-- Numeric value of a digit list (most significant first). -/
def digitsToNat (ds : List Char) : Nat :=
  ds.foldl (fun n c => n * 10 + (c.toNat - '0'.toNat)) 0

/-- First maximal run of decimal digits anywhere in the list, as a number:
the model of `re.findall(r"\d+", s)[0]` (`none` when the string has no digit). -/
def firstDigitRun : List Char → Option Nat
  | [] => none
  | c :: cs =>
    if c.isDigit then
      let (run, _) := digitRun (c :: cs)
      some (digitsToNat run)
    else firstDigitRun cs

/-! ## Parsed JSON values -/

/-- A parsed JSON value, the result type of Python's `json.loads`.

Numbers (Python int and float alike) are modelled as exact rationals; objects
are ordered association lists, mirroring CPython dict semantics (insertion
order preserved, assignment to an existing key keeps its position). -/
inductive Json where
  | null
  | bool (b : Bool)
  | num (q : ℚ)
  | str (s : String)
  | arr (elems : List Json)
  | obj (fields : List (String × Json))
  deriving Repr

/-- Python truthiness (`bool(x)`) of a parsed JSON value: `None`, `False`,
zero, and empty strings/lists/dicts are falsy. -/
def truthy : Json → Bool
  | .null => false
  | .bool b => b
  | .num q => decide (q ≠ 0)
  | .str s => !s.isEmpty
  | .arr xs => !xs.isEmpty
  | .obj kvs => !kvs.isEmpty

/-- Python's `a or b` on parsed JSON values. -/
def pyOr (a b : Json) : Json :=
  if truthy a then a else b

/-- First binding of a key in an ordered association list
(CPython dict keys are unique, so this is the dict lookup). -/
def jLookup (kvs : List (String × Json)) (k : String) : Option Json :=
  match kvs with
  | [] => none
  | (k', v) :: rest => if k' = k then some v else jLookup rest k

/-- Python `d.get(k)` on a dict value known to be an object:
missing keys yield `None`. -/
def jGetD (kvs : List (String × Json)) (k : String) : Json :=
  (jLookup kvs k).getD .null

/-- Python `d.get(k, default)` on a dict value known to be an object. -/
def jGetDef (kvs : List (String × Json)) (k : String) (dflt : Json) : Json :=
  (jLookup kvs k).getD dflt

/-- Python `x.get(k)` on an arbitrary value: raises `AttributeError` unless
the value is a dict. -/
def pyGet (j : Json) (k : String) : Except String Json :=
  match j with
  | .obj kvs => .ok (jGetD kvs k)
  | _ => .error "AttributeError"

/-- CPython dict item assignment `d[k] = v` on an ordered association list:
replace in place when the key exists, append otherwise. -/
def tsSet : List (String × Json) → String → Json → List (String × Json)
  | [], k, v => [(k, v)]
  | (k', v') :: rest, k, v =>
    if k' = k then (k', v) :: rest else (k', v') :: tsSet rest k v

/-- `html_parser._to_list`: `None` becomes `[]`, a string is wrapped, a list
yields its elements, a dict iterates to its keys (Python `list(dict)`), and a
non-iterable value is wrapped in a singleton (the `TypeError` branch). -/
def _to_list : Json → List Json
  | .null => []
  | .str s => [.str s]
  | .arr xs => xs
  | .obj kvs => kvs.map (fun kv => Json.str kv.1)
  | v => [v]

/-- Membership of a Python string in a list of parsed JSON values
(`s in xs`): Python `==` between a string and a non-string is `False`. -/
def jHasStr (xs : List Json) (s : String) : Bool :=
  xs.any (fun j => match j with | .str t => t = s | _ => false)

/-! ## Python `str()` of parsed JSON values

The truth-sheet builder applies `str(x)` to harvested values before
stripping/storing them.  `repr` of nested containers is modelled faithfully in
shape (brackets, separators, quoted keys); two approximations are documented
inline: non-integral numbers are rendered as exact fractions rather than by
the IEEE-754 shortest-repr algorithm, and string repr always uses
single quotes (Python switches quote style for strings that contain one).
Downstream code only ever tests these renderings for truthiness or stores
them verbatim, so no claim depends on the approximated spellings. -/

/-- Python `repr` of a string: quoted, with backslashes and quotes escaped. -/
def strReprPy (s : String) : String :=
  "'" ++ String.mk (s.data.foldr (fun c acc =>
    if c = '\\' then '\\' :: '\\' :: acc
    else if c = '\'' then '\\' :: '\'' :: acc
    else c :: acc) []) ++ "'"

/-- Python `str` of a number: exact integers render like Python ints;
non-integral rationals are rendered as fractions (see the section comment). -/
def numReprPy (q : ℚ) : String :=
  if q.den = 1 then toString q.num else toString q.num ++ "/" ++ toString q.den

/-- Python `repr` of a parsed JSON value. -/
def pyRepr : Json → String
  | .null => "None"
  | .bool b => if b then "True" else "False"
  | .num q => numReprPy q
  | .str s => strReprPy s
  | .arr xs => "[" ++ String.intercalate ", " (xs.attach.map (fun x => pyRepr x.1)) ++ "]"
  | .obj kvs => "\x7b" ++ String.intercalate ", "
      (kvs.attach.map (fun kv => strReprPy kv.1.1 ++ ": " ++ pyRepr kv.1.2)) ++ "\x7d"
decreasing_by
  · have h := List.sizeOf_lt_of_mem x.2
    simp only [Json.arr.sizeOf_spec]
    omega
  · have h := List.sizeOf_lt_of_mem kv.2
    rcases kv with ⟨⟨k, v⟩, hkv⟩
    simp only [Json.obj.sizeOf_spec]
    simp only [Prod.mk.sizeOf_spec] at h
    omega

/-- Python `str(x)`: the string itself for strings, `repr` otherwise. -/
def pyStr : Json → String
  | .str s => s
  | j => pyRepr j

/-! ## `urllib.parse.urlparse(url).path`

A character-level model of the CPython parser, restricted to the `.path`
component (the only component the repository reads).  Steps, in CPython
order: remove tab/CR/LF anywhere and strip C0-control-or-space from the left
end only (CPython deliberately preserves trailing space); split off a scheme
`name:` when the prefix is alphanumeric/`+-.` and starts with a letter; split
off `//netloc` up to the first of `/?#`; drop a `#fragment`; drop a
`?query`; finally (for schemes in `uses_params`) drop a `;params` suffix of
the last path segment. -/

/-- Characters CPython's URL splitter deletes anywhere in the input. -/
def urlUnsafeChar (c : Char) : Bool :=
  c = '\t' || c = '\r' || c = '\n'

/-- C0 control or space, stripped from the left end by CPython's URL
splitter. -/
def c0OrSpace (c : Char) : Bool :=
  c.toNat ≤ 0x20

/-- Valid non-initial characters of a URL scheme. -/
def schemeChar (c : Char) : Bool :=
  c.isAlpha || c.isDigit || c = '+' || c = '-' || c = '.'

/-- Schemes for which `urlparse` splits `;params` off the path
(CPython's `uses_params`, with the empty scheme). -/
def usesParams : List String :=
  ["", "ftp", "hdl", "prospero", "http", "imap", "https", "shttp", "rtsp",
   "rtsps", "rtspu", "sip", "sips", "mms", "sftp", "tel"]

/-- `_splitparams`: drop `;params` from the last path segment. -/
def splitParamsChars (cs : List Char) : List Char :=
  if cs.contains '/' then
    let revSeg := cs.reverse.takeWhile (· ≠ '/')
    if revSeg.reverse.contains ';' then
      cs.take (cs.length - revSeg.length) ++ revSeg.reverse.takeWhile (· ≠ ';')
    else cs
  else cs.takeWhile (· ≠ ';')

/-- The `.path` component of `urllib.parse.urlparse`, on character lists. -/
def urlparsePathChars (cs0 : List Char) : List Char :=
  let cs := (cs0.filter (fun c => !urlUnsafeChar c)).dropWhile c0OrSpace
  -- scheme
  let pre := cs.takeWhile (· ≠ ':')
  let hasScheme := pre.length < cs.length && !pre.isEmpty &&
    (match pre with | c :: _ => c.isAlpha | [] => false) && pre.all schemeChar
  let scheme := if hasScheme then String.mk (pre.map pyLowerChar) else ""
  let cs := if hasScheme then cs.drop (pre.length + 1) else cs
  -- netloc
  let cs :=
    match cs with
    | '/' :: '/' :: rest => rest.dropWhile (fun c => !(c = '/' || c = '?' || c = '#'))
    | _ => cs
  -- fragment, then query
  let cs := cs.takeWhile (· ≠ '#')
  let cs := cs.takeWhile (· ≠ '?')
  -- params
  if usesParams.contains scheme && cs.contains ';' then splitParamsChars cs else cs

/-- `urllib.parse.urlparse(url).path` on strings. -/
def urlparsePath (s : String) : String :=
  String.mk (urlparsePathChars s.data)

/-! ## `image_processor.py` -/

/-- `MIN_SIDE`: minimum pixel side length for a product-quality image. -/
def MIN_SIDE : Nat := 500

/-- `ASPECT_LOW`: lower inclusive aspect-ratio bound.  The Python source
compares IEEE-754 doubles; the model uses exact rationals, which agree with
the double comparisons for every realistic pixel dimension (a disagreement
would need a side length above `4·10^15`). -/
def ASPECT_LOW : ℚ := 0.8

/-- `ASPECT_HIGH`: upper inclusive aspect-ratio bound. -/
def ASPECT_HIGH : ℚ := 1.25

/-- `image_processor._passes_quality`: both sides at least `MIN_SIDE` and
aspect ratio `w / h` within `[ASPECT_LOW, ASPECT_HIGH]`; a zero height short
circuits the division to an aspect of `0` exactly as the source's
`w / h if h else 0` does. -/
def _passes_quality (w h : Nat) : Bool :=
  if w < MIN_SIDE || h < MIN_SIDE then false
  else
    let aspect : ℚ := if h ≠ 0 then (w : ℚ) / (h : ℚ) else 0
    decide (ASPECT_LOW ≤ aspect) && decide (aspect ≤ ASPECT_HIGH)

/-- One scored `srcset` entry: the URL token and the numeric score taken from
its descriptor. -/
structure SrcsetCand where
  url : String
  score : Nat
  deriving Repr, DecidableEq

/-- The candidate list built by `image_processor._parse_best_from_srcset`:
split the attribute on commas; for each entry, split on whitespace; the first
token is the URL; the score is the first digit run of the lowercased second
token (`re.findall(r"\d+", descriptor)[0]`), or `0` when there is no second
token or it has no digits. -/
def srcsetCandidates (srcset_str : String) : List SrcsetCand :=
  (pySplitOn srcset_str ',').filterMap (fun entry =>
    match pyWords (pyStrip entry) with
    | [] => none
    | tok :: rest =>
      let url := pyStrip tok
      if url = "" then none
      else
        let score := match rest with
          | [] => 0
          | d :: _ => (firstDigitRun (pyLower d).data).getD 0
        some ⟨url, score⟩)

/-- `image_processor._parse_best_from_srcset`.  The source sorts the
candidates by score, descending, with Python's stable sort and takes element
0; the head of a stable descending sort is the first candidate attaining the
maximal score, computed here by a left fold that replaces the current best
only on a strictly greater score. -/
def _parse_best_from_srcset (srcset_str : String) : Option String :=
  if srcset_str = "" then none
  else
    match srcsetCandidates srcset_str with
    | [] => none
    | c :: cs => some ((cs.foldl (fun best x => if best.score < x.score then x else best) c).url)

/-- The resolution-marker words of `_dedupe_images`' pattern, in the
pattern's alternation order (after the `\d+x\d+` dimension alternative). -/
def markerWords : List String :=
  ["thumb", "small", "medium", "max", "large", "original"]

/-- Match `\d+x\d+` (case-insensitive, so `x` or `X`) at the head of the
list; returns the matched length. -/
def matchDim (cs : List Char) : Option Nat :=
  let (d1, rest1) := digitRun cs
  if d1.isEmpty then none
  else
    match rest1 with
    | x :: rest2 =>
      if x = 'x' || x = 'X' then
        let (d2, _) := digitRun rest2
        if d2.isEmpty then none else some (d1.length + 1 + d2.length)
      else none
    | [] => none

/-- Match the body of `_dedupe_images`' regular expression
`(\d+x\d+|thumb|small|medium|max|large|original)` (case-insensitive) at the
head of the list; returns the matched length.  The word alternatives are
prefix-free, so Python's first-alternative-wins order is immaterial beyond
trying the dimension form first. -/
def matchMarker (cs : List Char) : Option Nat :=
  match matchDim cs with
  | some k => some k
  | none =>
    (markerWords.find? (fun w => (cs.take w.data.length).map pyLowerChar = w.data)).map
      (fun w => w.data.length)

/-- `re.sub(r"[-_](\d+x\d+|thumb|…|original)", "", s, flags=IGNORECASE)`:
left-to-right, non-overlapping removal of marker occurrences introduced by a
`-` or `_`.  The fuel argument (instantiated with the list length, an upper
bound on the number of steps) keeps the recursion structural so that the
kernel can evaluate it; every step consumes at least one character. -/
def subMarkersF : Nat → List Char → List Char
  | 0, cs => cs
  | _, [] => []
  | fuel + 1, c :: rest =>
    if c = '-' || c = '_' then
      match matchMarker rest with
      | some k => subMarkersF fuel (rest.drop k)
      | none => c :: subMarkersF fuel rest
    else c :: subMarkersF fuel rest

/-- The asset-identity key of `_dedupe_images`: the URL up to the query
string (`url.split("?")[0]`) with resolution-marker segments removed. -/
def imageDedupIdentity (url : String) : String :=
  let base := url.data.takeWhile (· ≠ '?')
  String.mk (subMarkersF base.length base)

/-- Lookup in an ordered association list with string keys. -/
def assocFind {α : Type} (kvs : List (String × α)) (k : String) : Option α :=
  match kvs with
  | [] => none
  | (k', v) :: rest => if k' = k then some v else assocFind rest k

/-- In-place value replacement for an existing key of an ordered association
list (CPython dict assignment to a present key). -/
def assocReplace {α : Type} (kvs : List (String × α)) (k : String) (v : α) :
    List (String × α) :=
  match kvs with
  | [] => []
  | (k', v') :: rest =>
    if k' = k then (k', v) :: rest else (k', v') :: assocReplace rest k v

/-- One step of `_dedupe_images`' dict build: keep the longest URL seen for
each identity (first one wins on equal length). -/
def dedupeInsert (acc : List (String × String)) (url : String) :
    List (String × String) :=
  let ident := imageDedupIdentity url
  match assocFind acc ident with
  | none => acc ++ [(ident, url)]
  | some cur => if cur.length < url.length then assocReplace acc ident url else acc

/-- `image_processor._dedupe_images`: group URLs by asset identity and keep,
per identity, the longest URL, in first-encounter order of the identities
(`dict.values()` order). -/
def _dedupe_images (urls : List String) : List String :=
  if urls.isEmpty then []
  else (urls.foldl dedupeInsert []).map Prod.snd

/-- `NON_PRODUCT_PATH_SUBSTRINGS`: path substrings of non-product assets. -/
def NON_PRODUCT_PATH_SUBSTRINGS : List String :=
  ["email_sign_up", "EMAILprompt", "sign_up", "banner", "promo"]

/-- Whether a URL's lowercased path contains a lowercased blocklist entry. -/
def blockedPath (blocklist : List String) (u : String) : Bool :=
  let path := pyLower (urlparsePath u)
  blocklist.any (fun sub => pyContains path (pyLower sub))

/-- `image_processor._drop_non_product_urls`: drop URLs whose parsed path
contains a blocklist substring, case-insensitively.  A missing (or falsy,
i.e. empty) blocklist argument falls back to `NON_PRODUCT_PATH_SUBSTRINGS`,
mirroring `blocklist = blocklist or NON_PRODUCT_PATH_SUBSTRINGS`. -/
def _drop_non_product_urls (urls : List String)
    (blocklist : Option (List String) := none) : List String :=
  let bl := match blocklist with
    | some l => if l.isEmpty then NON_PRODUCT_PATH_SUBSTRINGS else l
    | none => NON_PRODUCT_PATH_SUBSTRINGS
  if urls.isEmpty then []
  else urls.filter (fun u => !blockedPath bl u)

/-! ## `models.py` -/

/-- `models.Category`. -/
structure Category where
  name : String
  deriving Repr, DecidableEq

/-- `models.Category.validate_name_exists`, the pydantic field validator for
`Category.name`, applied to a string input (pydantic guarantees the field is
a `str` before field validators run, so the source's `None`/non-`str` guard
is unreachable and drops out of this typed model).  The module-level
`VALID_CATEGORIES` set loaded from `categories.txt` is passed in as an
explicit argument to model the module state the validator closes over. -/
def validate_name_exists (validCategories : List String) (v : String) : String :=
  let v' := pyStrip v
  if v' = "" then "Uncategorized" else v'

/-- Constructing `Category(name=v)`: pydantic runs the field validator and
stores its return value; the validator returns on every branch, so
construction always succeeds. -/
def Category.mk_validated (validCategories : List String) (v : String) : Category :=
  ⟨validate_name_exists validCategories v⟩

/-- `models.Price`. -/
structure Price where
  price : ℚ
  currency : String
  compare_at_price : Option ℚ := none
  deriving Repr, DecidableEq

/-- `models.ProductVariant`. -/
structure ProductVariant where
  sku : Option String := none
  color : Option String := none
  size : Option String := none
  price : Option ℚ := none
  image_url : Option String := none
  deriving Repr, DecidableEq

/-- `models.Product`. -/
structure Product where
  name : String
  price : Price
  description : String
  key_features : List String
  image_urls : List String
  video_url : Option String := none
  category : Category
  brand : String
  colors : List String
  variants : List ProductVariant
  deriving Repr, DecidableEq

/-- `models.DEFAULT_PRODUCT`, the sentinel unknown product. -/
def DEFAULT_PRODUCT : Product :=
  { name := "Unknown Product"
    price := { price := 0, currency := "USD", compare_at_price := none }
    description := ""
    key_features := []
    image_urls := []
    video_url := none
    category := ⟨"Uncategorized"⟩
    brand := ""
    colors := []
    variants := [] }

/-- `image_processor.normalize_product_image_urls`: when `image_urls` is
empty but variants exist, collect the distinct truthy variant `image_url`s in
order; then drop non-product paths; return the product with the updated
list. -/
def normalize_product_image_urls (product : Product) : Product :=
  let urls := product.image_urls
  let urls :=
    if urls.isEmpty && !product.variants.isEmpty then
      product.variants.foldl (fun acc v =>
        match v.image_url with
        | some u => if u ≠ "" && !acc.contains u then acc ++ [u] else acc
        | none => acc) []
    else urls
  let urls := _drop_non_product_urls urls
  { product with image_urls := urls }

/-! ## `html_parser.py`: helpers -/

/-- Digit run with single underscores between digits (Python numeric-literal
grammar for `float(str)`); returns the value, the number of digits consumed,
and the rest of the input. -/
def digitsUAux : List Char → Nat → Nat → Nat × Nat × List Char
  | [], v, n => (v, n, [])
  | c :: cs, v, n =>
    if c.isDigit then digitsUAux cs (v * 10 + (c.toNat - '0'.toNat)) (n + 1)
    else if c = '_' then
      match cs with
      | d :: cs' =>
        if d.isDigit then digitsUAux cs' (v * 10 + (d.toNat - '0'.toNat)) (n + 1)
        else (v, n, c :: cs)
      | [] => (v, n, c :: cs)
    else (v, n, c :: cs)

/-- `float(s)` for Python strings, as an exact rational: optional sign, then
digits with an optional fraction and an optional decimal exponent, the whole
(whitespace-stripped) string consumed.  Two documented deviations from
CPython: the result is the exact decimal value rather than its nearest IEEE
double, and the non-finite spellings (`inf`, `infinity`, `nan`) — which lie
outside the rational model — are treated as unparseable. -/
def pyFloatOfString (s : String) : Option ℚ :=
  let cs := pyStripChars s.data
  let (sign, cs) : ℚ × List Char :=
    match cs with
    | '+' :: r => (1, r)
    | '-' :: r => (-1, r)
    | r => (1, r)
  let (iv, icnt, cs) := digitsUAux cs 0 0
  let (fv, fcnt, cs) :=
    match cs with
    | '.' :: r => digitsUAux r 0 0
    | r => (0, 0, r)
  if icnt + fcnt = 0 then none
  else
    let expPart : Option (Int × List Char) :=
      match cs with
      | e :: r =>
        if e = 'e' || e = 'E' then
          let (esign, r') : Int × List Char :=
            match r with
            | '+' :: r'' => (1, r'')
            | '-' :: r'' => (-1, r'')
            | r'' => (1, r'')
          let (ev, ecnt, r'') := digitsUAux r' 0 0
          if ecnt = 0 then none else some (esign * ev, r'')
        else some (0, e :: r)
      | [] => some (0, [])
    match expPart with
    | none => none
    | some (ex, rest) =>
      if rest.isEmpty then
        some (sign * ((iv : ℚ) + (fv : ℚ) / (10 : ℚ) ^ fcnt) * (10 : ℚ) ^ ex)
      else none

/-- `html_parser._norm_float`: `float(val)` with `TypeError`/`ValueError`
mapped to `None`.  `float` of a bool is its integer value; lists, dicts and
`None` raise and therefore yield `None`. -/
def _norm_float : Json → Option ℚ
  | .null => none
  | .bool b => some (if b then 1 else 0)
  | .num q => some q
  | .str s => pyFloatOfString s
  | .arr _ => none
  | .obj _ => none

/-! ## `html_parser.py`: image identity and resolution scoring -/

/-- ASCII hexadecimal digit (the regex runs with `re.I`). -/
def isHexChar (c : Char) : Bool :=
  c.isDigit || ('a' ≤ c ∧ c ≤ 'f') || ('A' ≤ c ∧ c ≤ 'F')

/-- Consume exactly `n` hexadecimal characters. -/
def hexRun : Nat → List Char → Option (List Char)
  | 0, cs => some cs
  | _ + 1, [] => none
  | n + 1, c :: cs => if isHexChar c then hexRun n cs else none

/-- Does a UUID-shaped substring (`8-4-4-4-12` hex groups) start here? -/
def uuidAt (cs : List Char) : Bool :=
  match hexRun 8 cs with
  | some ('-' :: r1) =>
    match hexRun 4 r1 with
    | some ('-' :: r2) =>
      match hexRun 4 r2 with
      | some ('-' :: r3) =>
        match hexRun 4 r3 with
        | some ('-' :: r4) => (hexRun 12 r4).isSome
        | _ => false
      | _ => false
    | _ => false
  | _ => false

/-- Leftmost UUID-shaped substring, lowercased: the capture group of
`re.search(r"[a-z]*_?([0-9a-f]{8}-[0-9a-f]{4}-[0-9a-f]{4}-[0-9a-f]{4}-[0-9a-f]{12})", path, re.I)`.
The `[a-z]*_?` prefix of the pattern can always match empty, and two
UUID-shaped substrings cannot overlap (their dashes sit at fixed offsets) nor
can a later one be reached across the dash of an earlier one by the
alphabetic prefix run, so the captured group is exactly the leftmost UUID
occurrence. -/
def uuidSearch : List Char → Option String
  | [] => none
  | c :: cs =>
    if uuidAt (c :: cs) then some (String.mk (((c :: cs).take 36).map pyLowerChar))
    else uuidSearch cs

/-- `html_parser._image_identity`: `None` for empty/whitespace-only URLs;
otherwise the lowercased leftmost UUID-shaped segment of the parsed path, or,
failing that, the lowercased last non-empty path segment. -/
def _image_identity (url : String) : Option String :=
  if (pyStripChars url.data).isEmpty then none
  else
    let path := (urlparsePath url).data
    match uuidSearch path with
    | some g => some g
    | none =>
      let parts := (splitOnChar '/' path []).filter (fun p => !p.isEmpty)
      match parts.getLast? with
      | some p => some (String.mk (p.map pyLowerChar))
      | none => none

/-- Lowercase ASCII letter, digit, or underscore: the `[a-z0-9_]` class of
the thumbnail-template pattern (the subject is already lowercased). -/
def isAz09u (c : Char) : Bool :=
  ('a' ≤ c ∧ c ≤ 'z') || c.isDigit || c = '_'

/-- Terminator of the thumbnail-template pattern: an underscore, dash or
slash character class, or the end of the subject. -/
def dimTermOk : List Char → Bool
  | [] => true
  | c :: _ => c = '_' || c = '-' || c = '/'

/-- The small-dimension alternation `(?:1[0-4][0-9]|[0-5][0-9])` followed by
the terminator, at the head of the list. -/
def smallDimMatch (cs : List Char) : Bool :=
  (match cs with
   | '1' :: b :: c :: rest =>
     ('0' ≤ b && b ≤ '4') && c.isDigit && dimTermOk rest
   | _ => false)
  ||
  (match cs with
   | a :: b :: rest => ('0' ≤ a && a ≤ '5') && b.isDigit && dimTermOk rest
   | _ => false)

/-- After `t_`: some prefix of `[a-z0-9_]*`, an optional `[_-]`, then the
small-dimension alternation — tried at every split point, which is the set of
matches the backtracking engine can reach. -/
def tMatchTail : List Char → Bool
  | [] => false
  | c :: rest =>
    smallDimMatch (c :: rest)
    || ((c = '_' || c = '-') && smallDimMatch rest)
    || (isAz09u c && tMatchTail rest)

/-- Existence of a match of the CDN thumbnail-template pattern of
`_resolution_score` — `t_`, a run of `[a-z0-9_]`, an optional `[_-]`, the
small-dimension alternation `(?:1[0-4][0-9]|[0-5][0-9])`, then the
underscore/dash/slash-or-end terminator — anywhere in the (lowercased)
subject. -/
def regexTSearch : List Char → Bool
  | [] => false
  | c :: cs =>
    (c = 't' && (match cs with | '_' :: rest => tMatchTail rest | _ => false))
    || regexTSearch cs

/-- The query-parameter names of the small-dimension query pattern. -/
def paramWords : List String := ["wid", "hei", "w", "h", "size"]

/-- `[0-9]{1,3}` followed by `(?:[&]|$)`: one, two or three digits then an
ampersand or the end. -/
def digits13Amp (ds : List Char) : Bool :=
  match ds with
  | d1 :: rest1 =>
    d1.isDigit &&
      (match rest1 with
       | [] => true
       | '&' :: _ => true
       | d2 :: rest2 =>
         d2.isDigit &&
           (match rest2 with
            | [] => true
            | '&' :: _ => true
            | d3 :: rest3 =>
              d3.isDigit &&
                (match rest3 with
                 | [] => true
                 | '&' :: _ => true
                 | _ => false)))
  | [] => false

/-- After a `?` or `&`: one of the parameter names, `=`, then
`[0-9]{1,3}(?:[&]|$)`. -/
def qMatchAt (cs : List Char) : Bool :=
  paramWords.any (fun w =>
    w.data.isPrefixOf cs &&
      (match cs.drop w.data.length with
       | '=' :: ds => digits13Amp ds
       | _ => false))

/-- Existence of a match of `[?&](?:wid|hei|w|h|size)=[0-9]{1,3}(?:[&]|$)`
(the small-dimension query pattern of `_resolution_score`) anywhere in the
(lowercased) subject. -/
def regexQSearch : List Char → Bool
  | [] => false
  | c :: cs => ((c = '?' || c = '&') && qMatchAt cs) || regexQSearch cs

/-- `html_parser._resolution_score`: penalise thumbnail/small/default
indicators, CDN thumbnail templates and small query dimensions; reward
pdp/large/original/hero/full indicators and known large dimension tokens. -/
def _resolution_score (url : String) : Int :=
  if url = "" then 0
  else
    let u := pyLower url
    let ud := u.data
    let score : Int := 0
    let score := if pyContains u "thumb" || pyContains u "small" || pyContains u "default"
      then score - 1 else score
    let score := if regexTSearch ud then score - 2 else score
    let score := if regexQSearch ud then score - 2 else score
    let score := if pyContains u "pdp" || pyContains u "large" || pyContains u "original"
        || pyContains u "hero" || pyContains u "full"
      then score + 1 else score
    let score := if pyContains u "535" || pyContains u "936" || pyContains u "1080"
        || pyContains u "1440"
      then score + 1 else score
    score

/-! ## `html_parser.upgrade_variant_urls` -/

/-- The `identity → best-scored candidate URL` map of `upgrade_variant_urls`:
fold over the candidates, skipping falsy ones (at the annotated `list[str]`
type the `isinstance` guard can only reject the empty string) and those
without an identity; a later candidate replaces the stored one only on a
strictly greater resolution score (dict insertion order preserved). -/
def idBestStep (m : List (String × String)) (url : String) : List (String × String) :=
  if url = "" then m
  else
    match _image_identity url with
    | none => m
    | some ident =>
      match assocFind m ident with
      | none => m ++ [(ident, url)]
      | some cur =>
        if _resolution_score cur < _resolution_score url then assocReplace m ident url
        else m

/-- The full `identity → best candidate` map build. -/
def buildIdBest (candidates : List String) : List (String × String) :=
  candidates.foldl idBestStep []

/-- The per-variant body of `upgrade_variant_urls`' loop: a dict variant
whose current `image_url` is a non-empty string, has an identity, and whose
identity has a strictly better-scored candidate gets that candidate written
into `image_url`; every other variant is left unchanged. -/
def upgradeVariantOne (idBest : List (String × String)) (var : Json) : Json :=
  match var with
  | .obj vf =>
    match jGetD vf "image_url" with
    | .str cur =>
      if cur = "" then .obj vf
      else
        match _image_identity cur with
        | none => .obj vf
        | some ident =>
          match assocFind idBest ident with
          | none => .obj vf
          | some best =>
            if _resolution_score cur < _resolution_score best then
              .obj (tsSet vf "image_url" (.str best))
            else .obj vf
    | _ => .obj vf
  | v => v

/-- `html_parser.upgrade_variant_urls`.  The source mutates the variant dicts
inside the sheet's `variants` list in place; the model rebinds the key to the
pointwise-updated list, which leaves key order untouched.  A truthy
non-iterable `variants` value raises `TypeError` in the source's `for` loop;
a truthy string or dict iterates to non-dict items that the loop skips. -/
def upgrade_variant_urls (truth_sheet : Json) (image_candidates : List String) :
    Except String Json :=
  match truth_sheet with
  | .obj tf =>
    let variants := pyOr (jGetD tf "variants") (Json.arr [])
    if !truthy variants || image_candidates.isEmpty then .ok (.obj tf)
    else
      match variants with
      | .arr vs =>
        let idBest := buildIdBest image_candidates
        .ok (.obj (tsSet tf "variants" (.arr (vs.map (upgradeVariantOne idBest)))))
      | .str _ | .obj _ => .ok (.obj tf)
      | _ => .error "TypeError"
  | _ => .error "AttributeError"

/-! ## `html_parser.extract_metadata`: JSON-LD harvesting

`extract_metadata` walks the `application/ld+json` script blocks of the
document; the HTML parsing (BeautifulSoup) and `json.loads` are library
boundaries, so the model takes one `Option Json` per block: `none` for a
block whose content is missing/whitespace-only or fails to parse, `some j`
for a block parsing to `j`. -/

/-- The JSON-LD accumulation loop of `extract_metadata`: a failed block is
skipped, a block parsing to a list is extended element by element
(`output["json_ld"].extend(data)`), any other block is appended as one
entry. -/
def harvest_json_ld (blocks : List (Option Json)) : List Json :=
  blocks.foldl (fun acc b =>
    match b with
    | none => acc
    | some (.arr xs) => acc ++ xs
    | some j => acc ++ [j]) []

/-! ## `html_parser.py`: embedded-JSON product extraction -/

/-- The mutable `result` dict of `_extract_product_from_embedded`, with its
three fixed keys.  The source returns `{k: v for k, v in result.items() if v}`
(empty fields pruned); the caller only reads the result through
truthiness-guarded `.get` calls, for which pruning is observationally the
identity, so the model keeps the unpruned record. -/
structure ExtractState where
  colors : List String := []
  variants : List Json := []
  image_urls : List String := []
  deriving Repr

/-- Python `for x in v` iteration over a parsed JSON value: lists iterate to
their elements, strings to their characters, dicts to their keys; a number or
bool raises `TypeError`. -/
def pyIter : Json → Except String (List Json)
  | .arr xs => .ok xs
  | .str s => .ok (s.data.map (fun c => Json.str (String.mk [c])))
  | .obj kvs => .ok (kvs.map (fun kv => Json.str kv.1))
  | _ => .error "TypeError"

/-- `html_parser._best_image_url`: collect the stripped string candidates
found under the known image keys (strings directly, dicts through
`url`/`contentUrl`), then take Python's `max` by the `(resolution score,
length)` key — the first candidate attaining the lexicographic maximum. -/
def _best_image_url (cw : List (String × Json)) : Option String :=
  let candidates :=
    ["heroImg", "fullSizeImg", "pdpImg", "portraitImg", "squarishImg", "image"].foldl
      (fun acc key =>
        match jGetD cw key with
        | .str s => if pyStrip s ≠ "" then acc ++ [pyStrip s] else acc
        | .obj vf =>
          match pyOr (jGetD vf "url") (jGetD vf "contentUrl") with
          | .str us => if pyStrip us ≠ "" then acc ++ [pyStrip us] else acc
          | _ => acc
        | _ => acc) []
  match candidates with
  | [] => none
  | c :: cs =>
    some (cs.foldl (fun best x =>
      if _resolution_score best < _resolution_score x
          || (_resolution_score best = _resolution_score x && best.length < x.length)
      then x else best) c)

/-- One colorway entry of `_harvest_colorway_images`' loop: a non-dict entry
is skipped; a dict entry contributes its (new) color, its (new) best image,
and one appended variant dict. -/
def cwStep (out : ExtractState) (cwj : Json) : ExtractState :=
  match cwj with
  | .obj cw =>
    -- `color = (cw.get("colorDescription") or cw.get("color") or cw.get("name"))
    --          and str(cw.get("colorDescription") or cw.get("color") or cw.get("name", "")).strip()`;
    -- when the first operand is truthy the second's `or` chain selects the same value
    let a := pyOr (jGetD cw "colorDescription") (pyOr (jGetD cw "color") (jGetD cw "name"))
    let colorStr := pyStrip (pyStr
      (pyOr (jGetD cw "colorDescription") (pyOr (jGetD cw "color") (jGetDef cw "name" (.str "")))))
    let colorOk := truthy a && colorStr ≠ ""
    let img := _best_image_url cw
    let out :=
      if colorOk && !out.colors.contains colorStr then
        { out with colors := out.colors ++ [colorStr] }
      else out
    -- `_best_image_url` only returns stripped non-empty strings, so a `some`
    -- result is always truthy
    let out :=
      match img with
      | some i =>
        if !out.image_urls.contains i then { out with image_urls := out.image_urls ++ [i] }
        else out
      | none => out
    let skuJ := pyOr (jGetD cw "sku") (pyOr (jGetD cw "id") .null)
    let colorJ := if colorOk then Json.str colorStr else Json.null
    let priceJ := match _norm_float (jGetD cw "price") with
      | some q => Json.num q
      | none => Json.null
    let imgJ := match img with
      | some i => Json.str i
      | none => Json.null
    { out with variants := out.variants ++
        [Json.obj [("sku", skuJ), ("color", colorJ), ("size", .null),
                   ("price", priceJ), ("image_url", imgJ)]] }
  | _ => out

/-- `html_parser._harvest_colorway_images`: pick the colorway list from
`colorwayImages`/`colorways`/`variants` (with `[]` fallback); a non-list
value means an early return. -/
def _harvest_colorway_images (o : List (String × Json)) (out : ExtractState) :
    ExtractState :=
  let colorways := pyOr (jGetD o "colorwayImages")
    (pyOr (jGetD o "colorways") (pyOr (jGetD o "variants") (.arr [])))
  match colorways with
  | .arr cws => cws.foldl cwStep out
  | _ => out

/-- One indexed answer of `_harvest_product_media`'s loop.  Non-dict answers
are skipped; `.strip()` of a truthy non-string `title` raises
`AttributeError`. -/
def pmStep (media : List Json) (out : ExtractState) (ia : Nat × Json) :
    Except String ExtractState :=
  match ia.2 with
  | .obj af => do
    let color ← match pyOr (jGetD af "title") (.str "") with
      | .str s => .ok (pyStrip s)
      | _ => .error "AttributeError"
    -- `src = (media[i].get("src") or media[i].get("url"))
    --        and str(media[i].get("src") or media[i].get("url", "")).strip()`
    let src : Json :=
      match media.get? ia.1 with
      | some (.obj mf) =>
        let a := pyOr (jGetD mf "src") (jGetD mf "url")
        if truthy a then
          .str (pyStrip (pyStr (pyOr (jGetD mf "src") (jGetDef mf "url" (.str "")))))
        else a
      | _ => .null
    let out :=
      if color ≠ "" && !out.colors.contains color then
        { out with colors := out.colors ++ [color] }
      else out
    -- a truthy `src` is always the stripped-string branch of the `and`
    let out :=
      match src with
      | .str s =>
        if s ≠ "" && !out.image_urls.contains s then
          { out with image_urls := out.image_urls ++ [s] }
        else out
      | _ => out
    let colorJ := if color ≠ "" then Json.str color else Json.null
    return { out with variants := out.variants ++
        [Json.obj [("sku", .null), ("color", colorJ), ("size", .null),
                   ("price", .null), ("image_url", src)]] }
  | _ => .ok out

/-- `html_parser._harvest_product_media`: variants from `product.media`
aligned positionally with the answers of the first `COLOR`-typed question. -/
def _harvest_product_media (product : List (String × Json)) (out : ExtractState) :
    Except String ExtractState :=
  let media := pyOr (jGetD product "media") (.arr [])
  match media with
  | .arr mediaList => do
    let questions := pyOr (jGetD product "questions") (.arr [])
    let qs ← pyIter questions
    let colorAnswers :=
      match qs.find? (fun q =>
        match q with
        | .obj qf => pyUpper (pyStr (pyOr (jGetD qf "type") (.str ""))) = "COLOR"
        | _ => false) with
      | some (.obj qf) => pyOr (jGetD qf "answers") (.arr [])
      | _ => .arr []
    let answers ← pyIter colorAnswers
    answers.enum.foldlM (pmStep mediaList) out
  | _ => .ok out

/-- `html_parser._PRODUCT_KEYS`. -/
def _PRODUCT_KEYS : List String :=
  ["colorDescription", "colorwayImages", "color", "variants", "hasVariant",
   "products", "productGroups", "image", "images"]

/-- `html_parser._heuristic_search`, written with the remaining depth budget
(`max_depth - depth`) as structural fuel: the source's `depth >= max_depth`
guard is the zero-fuel case, and each recursive call decrements the budget
just as the source increments `depth`.  A key outside `_PRODUCT_KEYS` is
skipped entirely (`continue` also skips the recursion). -/
def heuristicSearchFuel : Nat → ExtractState → Json → ExtractState
  | 0, out, _ => out
  | fuel + 1, out, .obj fieldsList =>
    fieldsList.foldl (fun out kv =>
      let key := kv.1
      let val := kv.2
      if !_PRODUCT_KEYS.contains key then out
      else
        let out :=
          if ["colorwayImages", "colorways", "variants", "hasVariant", "products"].contains key then
            match val with
            | .arr (v0 :: vrest) =>
              match v0 with
              | .obj _ => _harvest_colorway_images [("colorwayImages", .arr (v0 :: vrest))] out
              | _ => out
            | _ => out
          else if (key = "color" || key = "colorDescription") && truthy val then
            let s := pyStrip (pyStr val)
            if s ≠ "" && !out.colors.contains s then { out with colors := out.colors ++ [s] }
            else out
          else if key = "image" || key = "images" then
            (_to_list val).foldl (fun out u =>
              let u2 : Json :=
                match u with
                | .str s => .str s
                | .obj uf => pyOr (jGetD uf "url") (jGetD uf "contentUrl")
                | _ => .null
              -- `if u and isinstance(u, str) and u.strip() and u not in out["image_urls"]`
              match u2 with
              | .str s =>
                if s ≠ "" && pyStrip s ≠ "" && !out.image_urls.contains s then
                  { out with image_urls := out.image_urls ++ [pyStrip s] }
                else out
              | _ => out) out
          else out
        match val with
        | .obj _ => heuristicSearchFuel fuel out val
        | .arr (v0 :: vrest) =>
          match v0 with
          | .obj _ => ((v0 :: vrest).take 10).foldl (fun o item => heuristicSearchFuel fuel o item) out
          | _ => out
        | _ => out) out
  | _ + 1, out, _ => out

/-- `_heuristic_search(obj, out, depth, max_depth)`. -/
def _heuristic_search (obj : Json) (out : ExtractState) (depth max_depth : Nat) :
    ExtractState :=
  heuristicSearchFuel (max_depth - depth) out obj

/-- `html_parser._extract_product_from_embedded`: the `product.media`
pairing, the Next.js/Nuxt colorway shapes, and — only when those found
nothing — the bounded-depth heuristic key search. -/
def _extract_product_from_embedded (data : Json) : Except String ExtractState := do
  let result : ExtractState := {}
  let productVal ← pyGet data "product"
  let result ← match productVal with
    | .obj pf => _harvest_product_media pf result
    | _ => .ok result
  let propsVal ← pyGet data "props"
  let props := pyOr propsVal (.obj [])
  -- `page_props = props.get("pageProps") or props.get("__N_PAGE_PROPS__") or props`;
  -- a truthy non-dict `props` makes the first `.get` raise before the `or`
  -- chain can short-circuit, so sequencing both lookups is faithful
  let pp1 ← pyGet props "pageProps"
  let pp2 ← pyGet props "__N_PAGE_PROPS__"
  let pageProps := pyOr pp1 (pyOr pp2 props)
  let result :=
    match pageProps with
    | .obj ppf => if !ppf.isEmpty then _harvest_colorway_images ppf result else result
    | _ => result
  let nuxtVal ← pyGet data "data"
  let result :=
    match nuxtVal with
    | .obj nf =>
      match jGetD nf "data" with
      | .obj inner => _harvest_colorway_images inner result
      | _ => _harvest_colorway_images nf result
    | _ => result
  let result :=
    if result.colors.isEmpty && result.variants.isEmpty && result.image_urls.isEmpty then
      _heuristic_search data result 0 4
    else result
  return result

/-! ## `html_parser.get_hybrid_context`

The function reads one HTML document through `extract_metadata` and
`extract_distilled_content`; both sit on the BeautifulSoup/trafilatura
library boundary, so the model takes the metadata buckets and the distilled
markdown as inputs and embeds everything from the JSON-LD selection (line 369
of the source) onward. -/

/-- The output of `extract_metadata` (the four signal buckets). -/
structure RawMeta where
  json_ld : List Json := []
  embedded_json : List Json := []
  meta : List (String × String) := []
  product_attributes : List (String × String) := []
  deriving Repr

/-- The return value of `get_hybrid_context`. -/
structure HybridCtx where
  truth_sheet : Json
  md_content : String
  product_json_ld : List Json
  deriving Repr

/-- The `@type` test of the JSON-LD selection loop:
`obj_type == "Product" or (isinstance(obj_type, list) and "Product" in obj_type)`. -/
def isProductType (t : Json) : Bool :=
  match t with
  | .str s => s = "Product"
  | .arr xs => jHasStr xs "Product"
  | _ => false

/-- The selection loop of `get_hybrid_context`: the first JSON-LD entry whose
`@type` is (or includes) `"Product"`, defaulting to the empty dict; a
non-dict entry reached before a match makes `script.get` raise
`AttributeError`. -/
def selectProductLd : List Json → Except String (List (String × Json))
  | [] => .ok []
  | .obj kvs :: rest =>
    if isProductType (jGetDef kvs "@type" (.str "")) then .ok kvs else selectProductLd rest
  | _ :: _ => .error "AttributeError"

/-- The truth-sheet dict literal of lines 379–390: every field present, with
`name`/`description`/`category` already taken (truthily) from the selected
JSON-LD object. -/
def initialSheet (kvs : List (String × Json)) : List (String × Json) :=
  [("name", pyOr (jGetD kvs "name") .null),
   ("price", .null),
   ("description", pyOr (jGetD kvs "description") .null),
   ("key_features", .arr []),
   ("image_urls", .arr []),
   ("video_url", .null),
   ("category", pyOr (jGetD kvs "category") .null),
   ("brand", .null),
   ("colors", .arr []),
   ("variants", .arr [])]

/-- The `brand` derivation (object-with-`name` or plain string, stripped,
empty to `None`); branches that leave the field untouched yield the initial
`None`. -/
def brandValue (kvs : List (String × Json)) : Json :=
  match jGetD kvs "brand" with
  | .obj bf =>
    if truthy (jGetD bf "name") then
      let s := pyStrip (pyStr (jGetD bf "name"))
      if s ≠ "" then .str s else .null
    else .null
  | .str s => if pyStrip s ≠ "" then .str (pyStrip s) else .null
  | _ => .null

/-- The `price` derivation: first dict offer with a parseable `price` wins;
currency from `priceCurrency` with `"USD"` fallback; `compare_at_price` from
`highPrice`. -/
def priceValue (kvs : List (String × Json)) : Json :=
  match jGetD kvs "offers" with
  | .null => .null
  | offers =>
    let offerList := match offers with | .arr xs => xs | o => [o]
    match offerList.findSome? (fun o =>
      match o with
      | .obj of =>
        match _norm_float (jGetD of "price") with
        | some pv => some (of, pv)
        | none => none
      | _ => none) with
    | some (of, pv) =>
      let currency := pyOr (jGetD of "priceCurrency") (.str "USD")
      let currStr := if truthy currency then pyStrip (pyStr currency) else "USD"
      let cmp := match _norm_float (jGetD of "highPrice") with
        | some q => Json.num q
        | none => Json.null
      .obj [("price", .num pv), ("currency", .str currStr), ("compare_at_price", cmp)]
    | none => .null

/-- The `positiveNotes` pass of the `key_features` derivation. -/
def keyFeaturesFromNotes (kvs : List (String × Json)) : List String :=
  match jGetD kvs "positiveNotes" with
  | .arr notes =>
    notes.foldl (fun acc x =>
      match x with
      | .null => acc
      | .obj xf =>
        let s := pyStrip (pyStr (jGetDef xf "name" (.obj xf)))
        if s ≠ "" then acc ++ [s] else acc
      | other =>
        let s := pyStrip (pyStr other)
        if s ≠ "" then acc ++ [s] else acc) []
  | _ => []

/-- The full `key_features` derivation: `positiveNotes` first, then — only
when that yielded nothing — `additionalProperty` entries through
`value`/`name`. -/
def keyFeaturesValue (kvs : List (String × Json)) : List String :=
  let feats := keyFeaturesFromNotes kvs
  if feats.isEmpty then
    let add_props := pyOr (jGetD kvs "additionalProperty") (.arr [])
    let propsList := match add_props with
      | .arr xs => xs
      | .obj pf => [Json.obj pf]
      | _ => []
    propsList.foldl (fun acc p =>
      match p with
      | .obj pf =>
        match pyOr (jGetD pf "value") (jGetD pf "name") with
        | .null => acc
        | v =>
          let s := pyStrip (pyStr v)
          if s ≠ "" then acc ++ [s] else acc
      | _ => acc) []
  else feats

/-- The `images`/`image` harvest of lines 434–450 (before the non-product
filter): strings stripped, dicts through `url`/`contentUrl`, other non-null
values through `str()`, deduplicated in encounter order; when nothing
survived and `image` is truthy, one more attempt on `image` as a string. -/
def imageUrlsInitial (kvs : List (String × Json)) : List String :=
  let imgs := pyOr (jGetD kvs "images") (jGetD kvs "image")
  let lst := (_to_list imgs).foldl (fun acc u =>
    let uOpt : Option String :=
      match u with
      | .str s => if s ≠ "" then some (pyStrip s) else none
      | .obj uf =>
        match pyOr (jGetD uf "url") (jGetD uf "contentUrl") with
        | .str rs => some (pyStrip rs)
        | _ => none
      | .null => none
      | other => some (pyStrip (pyStr other))
    match uOpt with
    | some s => if s ≠ "" && !acc.contains s then acc ++ [s] else acc
    | none => acc) []
  if lst.isEmpty && truthy (jGetD kvs "image") then
    match jGetD kvs "image" with
    | .str s => if pyStrip s ≠ "" then [pyStrip s] else []
    | _ => []
  else lst

/-- The `image_urls` derivation of lines 434–458: harvest, drop non-product
paths, then fall back to the `og:image` meta value when empty. -/
def imageUrlsValue (kvs : List (String × Json)) (meta : List (String × String)) :
    List String :=
  let lst := _drop_non_product_urls (imageUrlsInitial kvs)
  if lst.isEmpty then
    match assocFind meta "og:image" with
    | some og => if pyStrip og ≠ "" then [pyStrip og] else []
    | none => []
  else lst

/-- The `video_url` derivation: first element of a list, `embedUrl` or
`contentUrl` of a dict, stripped string or `None`. -/
def videoValue (kvs : List (String × Json)) : Json :=
  let vid0 := jGetD kvs "video"
  let vid1 := match vid0 with
    | .arr (v :: _) => v
    | v => v
  let vid2 := match vid1 with
    | .obj vf => pyOr (jGetD vf "embedUrl") (jGetD vf "contentUrl")
    | v => v
  match vid2 with
  | .str s => .str (pyStrip s)
  | _ => .null

/-- The `colors` derivation: `color` coerced to a list of stripped non-empty
strings. -/
def colorsValue (kvs : List (String × Json)) : List String :=
  (_to_list (jGetD kvs "color")).foldl (fun acc x =>
    match x with
    | .null => acc
    | v =>
      let s := pyStrip (pyStr v)
      if s ≠ "" then acc ++ [s] else acc) []

/-- The `hasVariant` derivation of lines 472–489: one variant dict per dict
entry, with sku/color/size-or-width/price/image. -/
def variantsFromHasVariant (kvs : List (String × Json)) : List Json :=
  let hv := jGetDef kvs "hasVariant" (.arr [])
  let vlist := match hv with | .arr xs => xs | v => [v]
  vlist.foldl (fun acc v =>
    match v with
    | .obj vf =>
      let sku := pyOr (jGetD vf "sku") .null
      let color := pyOr (jGetD vf "color") .null
      let size := pyOr (jGetD vf "size") (pyOr (jGetD vf "width") .null)
      let priceJ := match _norm_float (jGetD vf "price") with
        | some q => Json.num q
        | none => Json.null
      let vimg := pyOr (jGetD vf "image") (jGetD vf "image_url")
      let imgJ :=
        if truthy vimg then
          let vurl : Json :=
            match vimg with
            | .str s => .str s
            | .obj imf => pyOr (jGetD imf "url") (jGetD imf "contentUrl")
            | _ => .null
          match vurl with
          | .str s => .str (pyStrip s)
          | _ => .null
        else .null
      acc ++ [Json.obj [("sku", sku), ("color", color), ("size", size),
                        ("price", priceJ), ("image_url", imgJ)]]
    | _ => acc) []

/-- The synthesized single variant of lines 491–499, reading the price and
first image from the sheet built so far.  The dict stored under `price` (when
it is a dict) always carries a `price` key, so the source's `[]` indexing
cannot raise. -/
def singleVariant (kvs : List (String × Json)) (s : List (String × Json)) : Json :=
  let priceRead := match jGetD s "price" with
    | .obj pf => jGetD pf "price"
    | _ => .null
  let imgRead := match jGetD s "image_urls" with
    | .arr (u :: _) => u
    | _ => .null
  Json.obj [("sku", jGetD kvs "sku"), ("color", pyOr (jGetD kvs "color") .null),
            ("size", .null), ("price", priceRead), ("image_url", imgRead)]

/-- Lines 379–499 of `get_hybrid_context`: the truth sheet derived from the
selected JSON-LD object (and the `og:image` meta fallback), before the
embedded-JSON enrichment.  Every Python assignment
`truth_sheet[k] = v` becomes a `tsSet`; every harvested URL/color/feature is
a stripped Python string, so the list-valued fields hold string entries by
construction. -/
def buildTruthSheet (kvs : List (String × Json)) (meta : List (String × String)) :
    List (String × Json) :=
  let s := initialSheet kvs
  let s := tsSet s "brand" (brandValue kvs)
  let s := tsSet s "price" (priceValue kvs)
  let s := tsSet s "key_features" (.arr ((keyFeaturesValue kvs).map Json.str))
  let s := tsSet s "image_urls" (.arr ((imageUrlsValue kvs meta).map Json.str))
  let s := tsSet s "video_url" (videoValue kvs)
  let s := tsSet s "colors" (.arr ((colorsValue kvs).map Json.str))
  let s := tsSet s "variants" (.arr (variantsFromHasVariant kvs))
  if (variantsFromHasVariant kvs).isEmpty && truthy (jGetD kvs "sku") then
    tsSet s "variants" (.arr [singleVariant kvs s])
  else s

/-- The sheet-level non-product filter of lines 453 and 516: the sheet's
`image_urls` entries are strings by construction (see `buildTruthSheet`), so
the filter acts entrywise on the strings; a non-string entry — unreachable —
is kept rather than modelling the `TypeError` of `urlparse`. -/
def jDropNonProduct (j : Json) : Json :=
  match j with
  | .arr xs => .arr (xs.filter (fun u =>
      match u with
      | .str s => !blockedPath NON_PRODUCT_PATH_SUBSTRINGS s
      | _ => true))
  | v => v

/-- Appending the extracted image URLs that are new to the sheet's list
(the `elif extracted.get("image_urls")` branch of the merge loop). -/
def appendDistinct (cur : Json) (us : List String) : Json :=
  match cur with
  | .arr xs => .arr (us.foldl (fun acc u =>
      if u ≠ "" && !jHasStr acc u then acc ++ [.str u] else acc) xs)
  | v => v

/-- One iteration of the embedded-JSON merge loop (lines 501–515): skip when
the extraction found nothing; otherwise fill `colors` and `variants` only
when still empty, and fill or union `image_urls`. -/
def mergeStep (sheet : List (String × Json)) (emb : Json) :
    Except String (List (String × Json)) := do
  let extracted ← _extract_product_from_embedded emb
  if extracted.image_urls.isEmpty && extracted.colors.isEmpty && extracted.variants.isEmpty then
    return sheet
  let sheet :=
    if !truthy (jGetD sheet "colors") && !extracted.colors.isEmpty then
      tsSet sheet "colors" (.arr (extracted.colors.map Json.str))
    else sheet
  let sheet :=
    if !truthy (jGetD sheet "variants") && !extracted.variants.isEmpty then
      tsSet sheet "variants" (.arr extracted.variants)
    else sheet
  let sheet :=
    if !truthy (jGetD sheet "image_urls") && !extracted.image_urls.isEmpty then
      tsSet sheet "image_urls" (.arr (extracted.image_urls.map Json.str))
    else if !extracted.image_urls.isEmpty then
      tsSet sheet "image_urls" (appendDistinct (jGetD sheet "image_urls") extracted.image_urls)
    else sheet
  return sheet

/-- `html_parser.get_hybrid_context`, from the metadata buckets and the
distilled markdown: select the Product JSON-LD object, build the truth sheet,
merge the embedded-JSON extractions, run the final non-product filter, and
return the sheet with the markdown and the full JSON-LD list. -/
def get_hybrid_context (raw_meta : RawMeta) (md_content : String) :
    Except String HybridCtx := do
  let kvs ← selectProductLd raw_meta.json_ld
  let sheet := buildTruthSheet kvs raw_meta.meta
  let sheet ← raw_meta.embedded_json.foldlM mergeStep sheet
  let sheet := tsSet sheet "image_urls" (jDropNonProduct (jGetD sheet "image_urls"))
  return { truth_sheet := .obj sheet, md_content := md_content,
           product_json_ld := raw_meta.json_ld }

/-! ## `main.run_pipeline` -/

/-- The value of stage 2 (`image_processor.get_filtered_media`): the
quality-verified URLs and the path-filtered candidates.  The dict it returns
has no `candidate_metadata` key, so `media.get("candidate_metadata", [])` in
the orchestrator is always `[]`. -/
structure Media where
  images : List String := []
  candidates : List String := []
  deriving Repr, DecidableEq

/-- The outcome of the external reasoning call `ai.responses(...)`: a Product
parsed successfully, a `pydantic.ValidationError`, or any other exception.
The call is an external collaborator, so the model takes its outcome as an
argument. -/
inductive AiOutcome where
  | ok (p : Product)
  | validationError (msg : String)
  | failure (msg : String)
  deriving Repr, DecidableEq

/-- The `[:1]` backfill payload: the first entry of the truth sheet's
`image_urls` value.  The entries are strings whenever the sheet was produced
by `get_hybrid_context` (see `buildTruthSheet`); a non-string first entry —
unreachable there — contributes nothing. -/
def firstImageStrs (j : Json) : List String :=
  match j with
  | .arr xs => (xs.take 1).filterMap (fun u =>
      match u with
      | .str s => some s
      | _ => none)
  | _ => []

/-- `main.run_pipeline` for one document.  `stage1`/`stage2` are the two
branches awaited by `asyncio.gather` (`get_hybrid_context` in a thread, and
`get_filtered_media`); an exception in either is caught and mapped to
`DEFAULT_PRODUCT`.  `upgrade_variant_urls` runs outside any `try`, so an
exception there propagates (`Except.error`).  The reasoning call's
`ValidationError` and any other exception are caught and mapped to
`DEFAULT_PRODUCT`; on success, the sole post-processing step backfills
`image_urls` with the first truth-sheet image when the response has none and
the sheet has some (the short-circuit of
`not response.image_urls and truth_sheet.get("image_urls")` is modelled by
testing emptiness before reading the sheet). -/
def run_pipeline (stage1 : Except String HybridCtx) (stage2 : Except String Media)
    (ai : AiOutcome) : Except String Product :=
  match stage1, stage2 with
  | .error _, _ => .ok DEFAULT_PRODUCT
  | _, .error _ => .ok DEFAULT_PRODUCT
  | .ok context, .ok media => do
    let truth_sheet := context.truth_sheet
    let image_candidates := media.candidates
    let truth_sheet ← upgrade_variant_urls truth_sheet image_candidates
    match ai with
    | .validationError _ => .ok DEFAULT_PRODUCT
    | .failure _ => .ok DEFAULT_PRODUCT
    | .ok response =>
      if response.image_urls.isEmpty then do
        let sheetImgs ← pyGet truth_sheet "image_urls"
        if truthy sheetImgs then
          .ok { response with image_urls := firstImageStrs sheetImgs }
        else .ok response
      else .ok response

/-! ## General lemmas -/

/-- `harvest_json_ld`'s fold starting from any accumulator prefixes the
accumulator to the result from the empty one. -/
theorem harvest_json_ld_go_eq (blocks : List (Option Json)) :
    ∀ acc : List Json,
      blocks.foldl (fun acc b =>
        match b with
        | none => acc
        | some (.arr xs) => acc ++ xs
        | some j => acc ++ [j]) acc
      = acc ++ harvest_json_ld blocks := by
  induction blocks with
  | nil => intro acc; simp [harvest_json_ld]
  | cons b bs ih =>
    intro acc
    rw [harvest_json_ld, List.foldl_cons, List.foldl_cons, ih, ih]
    match b with
    | none => simp
    | some (.arr xs) => simp
    | some .null => simp
    | some (.bool v) => simp
    | some (.num q) => simp
    | some (.str s) => simp
    | some (.obj kvs) => simp

/-- `harvest_json_ld` distributes over list concatenation. -/
theorem harvest_json_ld_append (l1 l2 : List (Option Json)) :
    harvest_json_ld (l1 ++ l2) = harvest_json_ld l1 ++ harvest_json_ld l2 := by
  rw [harvest_json_ld, List.foldl_append]
  rw [show l1.foldl _ [] = harvest_json_ld l1 from rfl]
  exact harvest_json_ld_go_eq l2 (harvest_json_ld l1)

/-! ## The claims -/

/-- **C7** — The image quality predicate is total and matches the stated
boundaries: `_passes_quality` returns `True` at width and height exactly at
the 500px minimum-side threshold, and whenever both sides meet the threshold
it succeeds exactly when the aspect ratio `w / h` lies in the inclusive band
`[0.8, 1.25]` (both boundary ratios pass: `600×750` has ratio exactly `0.8`
and `625×500` exactly `1.25`); it returns `False` when either side is one
unit below the threshold, and `False` for zero width or zero height without
any division fault (the function is a total Lean function). -/
theorem passes_quality_boundaries :
    (∀ w, _passes_quality w 0 = false) ∧
    (∀ h, _passes_quality 0 h = false) ∧
    _passes_quality 500 500 = true ∧
    _passes_quality 600 750 = true ∧
    _passes_quality 625 500 = true ∧
    _passes_quality 499 500 = false ∧
    _passes_quality 500 499 = false ∧
    (∀ w h, 500 ≤ w → 500 ≤ h →
      (_passes_quality w h = true ↔
        ((4 : ℚ) / 5 ≤ (w : ℚ) / (h : ℚ) ∧ (w : ℚ) / (h : ℚ) ≤ 5 / 4))) := by
  refine ⟨?_, ?_, ?_, ?_, ?_, ?_, ?_, ?_⟩
  · intro w; simp [_passes_quality, MIN_SIDE]
  · intro h; simp [_passes_quality, MIN_SIDE]
  · norm_num [_passes_quality, MIN_SIDE, ASPECT_LOW, ASPECT_HIGH]
  · norm_num [_passes_quality, MIN_SIDE, ASPECT_LOW, ASPECT_HIGH]
  · norm_num [_passes_quality, MIN_SIDE, ASPECT_LOW, ASPECT_HIGH]
  · norm_num [_passes_quality, MIN_SIDE]
  · norm_num [_passes_quality, MIN_SIDE]
  · intro w h hw hh
    have hw' : ¬ (w < MIN_SIDE) := by simp only [MIN_SIDE]; omega
    have hh' : ¬ (h < MIN_SIDE) := by simp only [MIN_SIDE]; omega
    have hne : h ≠ 0 := by omega
    simp only [_passes_quality, hw', hh', hne, decide_eq_false, Bool.or_self,
      Bool.false_eq_true, if_false, ne_eq, not_false_iff, if_true,
      Bool.and_eq_true, decide_eq_true_eq, ASPECT_LOW, ASPECT_HIGH]
    norm_num

/-- Witness for the hypotheses of `passes_quality_boundaries`: the band
characterisation applied at `600 × 750` (ratio exactly `4/5`). -/
theorem passes_quality_boundaries_witness :
    _passes_quality 600 750 = true ↔
      ((4 : ℚ) / 5 ≤ (600 : ℚ) / (750 : ℚ) ∧ (600 : ℚ) / (750 : ℚ) ≤ 5 / 4) :=
  passes_quality_boundaries.2.2.2.2.2.2.2 600 750 (by norm_num) (by norm_num)

/-- **C9** — The non-product-path filter is idempotent: applying
`_drop_non_product_urls` (with its default blocklist) to its own output
returns that output unchanged. -/
theorem drop_non_product_urls_idempotent (urls : List String) :
    _drop_non_product_urls (_drop_non_product_urls urls none) none
      = _drop_non_product_urls urls none := by
  simp only [_drop_non_product_urls]
  by_cases h : urls.isEmpty
  · simp [h]
  · simp only [h, if_neg, Bool.false_eq_true, not_false_iff, if_false]
    by_cases h2 : (urls.filter (fun u => !blockedPath NON_PRODUCT_PATH_SUBSTRINGS u)).isEmpty
    · simp only [h2, if_pos]
      exact (List.isEmpty_iff.mp h2).symm
    · simp only [h2, Bool.false_eq_true, not_false_iff, if_false]
      rw [List.filter_filter]
      simp

/-- **C10** — Product category validation is total and never rejects a
string: for every string `s` and every loaded taxonomy, the validator
returns (never raises), its result does not depend on the taxonomy
(`VALID_CATEGORIES` is never consulted), a whitespace-only name is coerced
to `"Uncategorized"`, and every other name is kept verbatim after trimming;
constructing a `Category` stores exactly the validated name. -/
theorem category_validation_total :
    ∀ (cats cats' : List String) (s : String),
      validate_name_exists cats s = validate_name_exists cats' s ∧
      Category.mk_validated cats s = ⟨validate_name_exists cats s⟩ ∧
      (validate_name_exists cats s = "Uncategorized" ∨
        validate_name_exists cats s = pyStrip s) ∧
      (pyStrip s = "" → validate_name_exists cats s = "Uncategorized") ∧
      (pyStrip s ≠ "" → validate_name_exists cats s = pyStrip s) ∧
      validate_name_exists cats "   " = "Uncategorized" ∧
      validate_name_exists cats " Leafy Greens " = "Leafy Greens" := by
  intro cats cats' s
  refine ⟨rfl, rfl, ?_, ?_, ?_, rfl, rfl⟩
  · by_cases h : pyStrip s = ""
    · left; simp [validate_name_exists, h]
    · right; simp [validate_name_exists, h]
  · intro h; simp [validate_name_exists, h]
  · intro h; simp [validate_name_exists, h]

/-- Witness for the hypotheses of `category_validation_total`: both
implications discharged at concrete names. -/
theorem category_validation_total_witness :
    validate_name_exists ["Apparel"] " " = "Uncategorized" ∧
    validate_name_exists ["Apparel"] "Custom Gadgets" = "Custom Gadgets" :=
  ⟨(category_validation_total ["Apparel"] [] " ").2.2.2.1 rfl,
   (category_validation_total ["Apparel"] [] "Custom Gadgets").2.2.2.2.1 (by decide)⟩

/-- **C4 (counterexample)** — The claim asserts the `json_ld` output never
contains a nested list entry, but a script block whose JSON is a list of
lists is extended element by element, so its inner lists become entries of
`json_ld`: on a document whose sole JSON-LD block parses to `[[1]]`, the
harvest output is `[[1]]`'s single element — itself a list. -/
theorem json_ld_nested_list_cex :
    harvest_json_ld [some (.arr [.arr [.num 1]])] = [.arr [.num 1]] := rfl

/-- **C4 (amended)** — The structured-markup harvest appends each element of
a list-parsing block individually (the block's list itself is never appended
as one entry — though an element that is itself a list does appear as that
list entry), appends a block parsing to a single object as-is, and skips an
unparseable block without raising and without affecting the entries
harvested from the sibling blocks before or after it. -/
theorem json_ld_harvest_spec :
    ∀ (pre post : List (Option Json)) (xs : List Json) (kvs : List (String × Json)),
      harvest_json_ld (pre ++ [some (.arr xs)]) = harvest_json_ld pre ++ xs ∧
      harvest_json_ld (pre ++ [some (.obj kvs)]) = harvest_json_ld pre ++ [.obj kvs] ∧
      harvest_json_ld (pre ++ none :: post) = harvest_json_ld (pre ++ post) := by
  intro pre post xs kvs
  refine ⟨?_, ?_, ?_⟩
  · rw [harvest_json_ld_append]; rfl
  · rw [harvest_json_ld_append]; rfl
  · rw [show pre ++ none :: post = pre ++ [none] ++ post by simp,
        harvest_json_ld_append, harvest_json_ld_append, harvest_json_ld_append]
    simp [harvest_json_ld]

/-- **C1** — `run_pipeline` returns the sentinel `DEFAULT_PRODUCT` instead of
propagating: when the metadata/distillation branch raises, when the
image-collection branch raises, and — provided the (untried)
`upgrade_variant_urls` call between the stages and the reasoning call
returns — when the external reasoning call raises or its output fails
`Product` schema validation. -/
theorem run_pipeline_sentinel :
    (∀ (e : String) (st2 : Except String Media) (ai : AiOutcome),
      run_pipeline (.error e) st2 ai = .ok DEFAULT_PRODUCT) ∧
    (∀ (st1 : Except String HybridCtx) (e : String) (ai : AiOutcome),
      run_pipeline st1 (.error e) ai = .ok DEFAULT_PRODUCT) ∧
    (∀ (ctx : HybridCtx) (media : Media) (ts : Json) (vmsg fmsg : String),
      upgrade_variant_urls ctx.truth_sheet media.candidates = .ok ts →
      run_pipeline (.ok ctx) (.ok media) (.validationError vmsg) = .ok DEFAULT_PRODUCT ∧
      run_pipeline (.ok ctx) (.ok media) (.failure fmsg) = .ok DEFAULT_PRODUCT) := by
  refine ⟨?_, ?_, ?_⟩
  · intro e st2 ai; cases st2 <;> rfl
  · intro st1 e ai; cases st1 <;> rfl
  · intro ctx media ts vmsg fmsg h
    constructor <;>
      simp only [run_pipeline, bind, Except.bind, h]

/-- Witness for the hypothesis of `run_pipeline_sentinel`: a concrete context
whose variant upgrade succeeds, with both failing reasoning outcomes mapped
to the sentinel. -/
theorem run_pipeline_sentinel_witness :
    run_pipeline (.ok ⟨.obj [("variants", .arr [])], "", []⟩) (.ok {})
        (.validationError "bad schema") = .ok DEFAULT_PRODUCT ∧
    run_pipeline (.ok ⟨.obj [("variants", .arr [])], "", []⟩) (.ok {})
        (.failure "quota") = .ok DEFAULT_PRODUCT :=
  ⟨(run_pipeline_sentinel.2.2 ⟨.obj [("variants", .arr [])], "", []⟩ {}
      (.obj [("variants", .arr [])]) "bad schema" "quota" rfl).1,
   (run_pipeline_sentinel.2.2 ⟨.obj [("variants", .arr [])], "", []⟩ {}
      (.obj [("variants", .arr [])]) "bad schema" "quota" rfl).2⟩

/-- **C2 (counterexample)** — The claim says the orchestrator removes
blocklisted URLs from the returned Product's `image_urls` and promotes a
variant image when `image_urls` is empty; the code does neither
(`normalize_product_image_urls` exists but `run_pipeline` never calls it).
First conjunct: a returned Product whose only image URL has `banner` in its
path comes back unchanged, although the filter (third conjunct) would remove
it.  Fourth conjunct: a returned Product with no images but a variant image
comes back with `image_urls` still empty (the truth sheet has no images, so
the sheet backfill does not fire either). -/
theorem run_pipeline_no_normalization_cex :
    run_pipeline (.ok ⟨.obj [("variants", .arr []), ("image_urls", .arr [])], "", []⟩)
        (.ok {})
        (.ok ⟨"P", ⟨0, "USD", none⟩, "", [], ["https://x.com/banner.jpg"], none,
              ⟨"Uncategorized"⟩, "", [], []⟩)
      = .ok ⟨"P", ⟨0, "USD", none⟩, "", [], ["https://x.com/banner.jpg"], none,
             ⟨"Uncategorized"⟩, "", [], []⟩ ∧
    blockedPath NON_PRODUCT_PATH_SUBSTRINGS "https://x.com/banner.jpg" = true ∧
    _drop_non_product_urls ["https://x.com/banner.jpg"] none = [] ∧
    run_pipeline (.ok ⟨.obj [("variants", .arr []), ("image_urls", .arr [])], "", []⟩)
        (.ok {})
        (.ok ⟨"Q", ⟨0, "USD", none⟩, "", [], [], none, ⟨"Uncategorized"⟩, "", [],
              [⟨none, none, none, none, some "https://x.com/v.jpg"⟩]⟩)
      = .ok ⟨"Q", ⟨0, "USD", none⟩, "", [], [], none, ⟨"Uncategorized"⟩, "", [],
             [⟨none, none, none, none, some "https://x.com/v.jpg"⟩]⟩ :=
  ⟨rfl, rfl, rfl, rfl⟩

/-- **C2 (amended)** — After the external reasoning call returns a Product,
the orchestrator's only post-processing is the truth-sheet backfill: when the
returned `image_urls` is empty and the (variant-upgraded) truth sheet has a
truthy `image_urls` value, `image_urls` is set to the sheet's first image;
in every other case the Product is returned exactly as the call produced it.
The blocklist scrub and variant-image promotion of
`normalize_product_image_urls` are not applied by `run_pipeline`. -/
theorem run_pipeline_success_postprocessing :
    ∀ (ctx : HybridCtx) (media : Media) (tf : List (String × Json)) (resp : Product),
      upgrade_variant_urls ctx.truth_sheet media.candidates = .ok (.obj tf) →
      run_pipeline (.ok ctx) (.ok media) (.ok resp)
        = .ok (if resp.image_urls.isEmpty && truthy (jGetD tf "image_urls") then
                 { resp with image_urls := firstImageStrs (jGetD tf "image_urls") }
               else resp) := by
  intro ctx media tf resp h
  simp only [run_pipeline, bind, Except.bind, h, pyGet]
  by_cases he : resp.image_urls.isEmpty
  · simp only [he, if_pos, Bool.true_and]
    by_cases ht : truthy (jGetD tf "image_urls")
    · simp [ht]
    · simp [ht]
  · simp [he]

/-- Witness for the hypothesis of `run_pipeline_success_postprocessing`: a
response without images picks up the first truth-sheet image. -/
theorem run_pipeline_success_postprocessing_witness :
    run_pipeline (.ok ⟨.obj [("image_urls", .arr [.str "https://x.com/a.jpg"]),
                             ("variants", .arr [])], "", []⟩)
        (.ok {}) (.ok { DEFAULT_PRODUCT with name := "R" })
      = .ok (if ({ DEFAULT_PRODUCT with name := "R" } : Product).image_urls.isEmpty
                && truthy (jGetD [("image_urls", .arr [.str "https://x.com/a.jpg"]),
                                  ("variants", .arr [])] "image_urls") then
               { ({ DEFAULT_PRODUCT with name := "R" } : Product) with
                 image_urls := firstImageStrs (jGetD [("image_urls", .arr [.str "https://x.com/a.jpg"]),
                                                      ("variants", .arr [])] "image_urls") }
             else { DEFAULT_PRODUCT with name := "R" }) :=
  run_pipeline_success_postprocessing
    ⟨.obj [("image_urls", .arr [.str "https://x.com/a.jpg"]), ("variants", .arr [])], "", []⟩
    {} [("image_urls", .arr [.str "https://x.com/a.jpg"]), ("variants", .arr [])]
    { DEFAULT_PRODUCT with name := "R" } rfl

/-- The best-candidate fold of `_parse_best_from_srcset` selects the first
candidate attaining the maximal score: the start list decomposes around the
fold's result, with strictly smaller scores before it and no larger score
after it. -/
theorem srcset_fold_first_max :
    ∀ (cs : List SrcsetCand) (c : SrcsetCand),
      ∃ l1 l2,
        c :: cs = l1 ++ (cs.foldl (fun best x => if best.score < x.score then x else best) c) :: l2
        ∧ (∀ x ∈ l1, x.score < (cs.foldl (fun best x => if best.score < x.score then x else best) c).score)
        ∧ (∀ x ∈ l2, x.score ≤ (cs.foldl (fun best x => if best.score < x.score then x else best) c).score) := by
  intro cs
  induction cs with
  | nil => exact fun c => ⟨[], [], rfl, by simp, by simp⟩
  | cons x xs ih =>
    intro c
    rw [List.foldl_cons]
    by_cases hcx : c.score < x.score
    · simp only [hcx, if_pos]
      obtain ⟨l1, l2, hdec, hpre, hpost⟩ := ih x
      refine ⟨c :: l1, l2, by rw [List.cons_append, ← hdec], ?_, hpost⟩
      intro y hy
      rcases List.mem_cons.mp hy with h | h
      · subst h
        rcases l1 with _ | ⟨z, l1'⟩
        · simp only [List.nil_append, List.cons.injEq] at hdec
          rw [← hdec.1]; exact hcx
        · have hz : z = x := by
            have h' := congrArg (fun l => l.head?) hdec
            simp at h'
            exact h'.symm
          have := hpre z (by simp)
          rw [hz] at this
          exact lt_trans hcx this
      · exact hpre y h
    · simp only [hcx, if_neg, not_false_iff, if_false]
      obtain ⟨l1, l2, hdec, hpre, hpost⟩ := ih c
      rcases l1 with _ | ⟨z, l1'⟩
      · simp only [List.nil_append, List.cons.injEq] at hdec
        refine ⟨[], x :: l2, by simp [← hdec.1, ← hdec.2], by simp, ?_⟩
        intro y hy
        rcases List.mem_cons.mp hy with h | h
        · subst h; rw [← hdec.1]; omega
        · exact hpost y h
      · have hz : z = c := by
          have h' := congrArg (fun l => l.head?) hdec
          simp at h'
          exact h'.symm
        subst hz
        have htail : xs = l1' ++ (xs.foldl (fun best x => if best.score < x.score then x else best) z) :: l2 := by
          simpa using congrArg (fun l => l.tail) hdec
        refine ⟨z :: x :: l1', l2, ?_, ?_, hpost⟩
        · rw [List.cons_append, List.cons_append, ← htail]
        · intro y hy
          have hzb := hpre z (by simp)
          rcases List.mem_cons.mp hy with h | h
          · subst h; exact hzb
          · rcases List.mem_cons.mp h with h' | h'
            · subst h'; omega
            · exact hpre y (by simp [h'])

/-- **C8 (counterexample)** — Two failures of the claim as stated.  First: a
whitespace-only `srcset` attribute has no entries, and the function returns
`None` rather than "exactly one URL".  Second: the score is the first digit
run anywhere in the descriptor (`re.findall(r"\d+", d)[0]`), not its
numeric prefix: the descriptor `x9` has no leading digits, yet scores `9`,
beating `5w`, so `a.jpg` wins where the claimed leading-digit scoring would
pick `b.jpg`. -/
theorem parse_best_srcset_cex :
    _parse_best_from_srcset " " = none ∧
    _parse_best_from_srcset "a.jpg x9, b.jpg 5w" = some "a.jpg" :=
  ⟨rfl, rfl⟩

/-- **C8 (amended)** — For every srcset attribute string with at least one
entry containing a URL token, `_parse_best_from_srcset` returns exactly one
URL: that of the entry whose descriptor contains the greatest first digit run
(the leading digits, for well-formed `w`/`x` descriptors; `0` for entries
with no descriptor or no digits), ties keeping the entry listed first; in
particular `small.jpg 400w, large.jpg 1200w` yields `large.jpg` and the
lower-descriptor URL is excluded. -/
theorem parse_best_srcset_spec :
    (∀ s : String, srcsetCandidates s ≠ [] →
      ∃ (b : SrcsetCand) (l1 l2 : List SrcsetCand),
        _parse_best_from_srcset s = some b.url ∧
        srcsetCandidates s = l1 ++ b :: l2 ∧
        (∀ x ∈ l1, x.score < b.score) ∧
        (∀ x ∈ l2, x.score ≤ b.score)) ∧
    _parse_best_from_srcset "small.jpg 400w, large.jpg 1200w" = some "large.jpg" := by
  refine ⟨?_, rfl⟩
  intro s hs
  have hsne : s ≠ "" := by
    intro h
    rw [h] at hs
    exact hs rfl
  match hcs : srcsetCandidates s with
  | [] => exact absurd hcs hs
  | c :: cs =>
    obtain ⟨l1, l2, hdec, hpre, hpost⟩ := srcset_fold_first_max cs c
    refine ⟨cs.foldl (fun best x => if best.score < x.score then x else best) c, l1, l2,
      ?_, hdec, hpre, hpost⟩
    simp only [_parse_best_from_srcset, if_neg hsne, hcs]

/-- Witness for the hypothesis of `parse_best_srcset_spec`: the general
first-maximum description applied to the two-entry srcset of the claim. -/
theorem parse_best_srcset_spec_witness :
    ∃ (b : SrcsetCand) (l1 l2 : List SrcsetCand),
      _parse_best_from_srcset "small.jpg 400w, large.jpg 1200w" = some b.url ∧
      srcsetCandidates "small.jpg 400w, large.jpg 1200w" = l1 ++ b :: l2 ∧
      (∀ x ∈ l1, x.score < b.score) ∧
      (∀ x ∈ l2, x.score ≤ b.score) :=
  parse_best_srcset_spec.1 "small.jpg 400w, large.jpg 1200w" (by decide)

/-! ## Lemmas for the deduplication map -/

/-- A found binding is a member of the association list. -/
theorem assocFind_mem {α : Type} {m : List (String × α)} {k : String} {v : α}
    (h : assocFind m k = some v) : (k, v) ∈ m := by
  induction m with
  | nil => simp [assocFind] at h
  | cons p rest ih =>
    rw [assocFind] at h
    by_cases hk : p.1 = k
    · simp only [hk, if_pos] at h
      cases h
      rw [← hk]
      simp
    · simp only [hk, if_neg, not_false_iff, if_false] at h
      exact List.mem_cons_of_mem _ (ih h)

/-- `assocFind` misses exactly the keys that are absent. -/
theorem assocFind_eq_none_iff {α : Type} {m : List (String × α)} {k : String} :
    assocFind m k = none ↔ k ∉ m.map Prod.fst := by
  induction m with
  | nil => simp [assocFind]
  | cons p rest ih =>
    rw [assocFind]
    by_cases hk : p.1 = k
    · simp [hk]
    · simp only [hk, if_neg, not_false_iff, if_false, List.map_cons, List.mem_cons, ih]
      constructor
      · intro h hmem
        rcases hmem with h' | h'
        · exact hk h'.symm
        · exact h h'
      · intro h h'
        exact h (Or.inr h')

/-- On a list whose keys are distinct, a found binding is the unique one. -/
theorem assocFind_unique {α : Type} {m : List (String × α)} {k : String} {v x : α}
    (hnd : (m.map Prod.fst).Nodup) (hf : assocFind m k = some v) (hx : (k, x) ∈ m) :
    x = v := by
  induction m with
  | nil => simp at hx
  | cons p rest ih =>
    rw [assocFind] at hf
    rw [List.map_cons, List.nodup_cons] at hnd
    rcases List.mem_cons.mp hx with h | h
    · have hk : p.1 = k := by rw [← h]
      simp only [hk, if_pos] at hf
      cases hf
      rw [← h]
    · by_cases hk : p.1 = k
      · exfalso
        apply hnd.1
        rw [hk]
        exact List.mem_map_of_mem Prod.fst h
      · simp only [hk, if_neg, not_false_iff, if_false] at hf
        exact ih hnd.2 hf h

/-- `assocReplace` does not change the key list. -/
theorem assocReplace_keys {α : Type} (m : List (String × α)) (k : String) (v : α) :
    (assocReplace m k v).map Prod.fst = m.map Prod.fst := by
  induction m with
  | nil => rfl
  | cons p rest ih =>
    rw [assocReplace]
    by_cases hk : p.1 = k
    · simp [hk]
    · simp [hk, ih]

/-- Members of `assocReplace` come from the original list or are the new
binding. -/
theorem assocReplace_mem {α : Type} {m : List (String × α)} {k : String} {v : α}
    {p : String × α} (h : p ∈ assocReplace m k v) : p ∈ m ∨ p = (k, v) := by
  induction m with
  | nil => simp [assocReplace] at h
  | cons q rest ih =>
    rw [assocReplace] at h
    by_cases hk : q.1 = k
    · simp only [hk, if_pos] at h
      rcases List.mem_cons.mp h with h' | h'
      · right; exact h'
      · left; exact List.mem_cons_of_mem _ h'
    · simp only [hk, if_neg, not_false_iff, if_false] at h
      rcases List.mem_cons.mp h with h' | h'
      · left; exact h' ▸ List.mem_cons_self q rest
      · rcases ih h' with h'' | h''
        · left; exact List.mem_cons_of_mem _ h''
        · right; exact h''

/-- A member whose key differs from the replaced one survives
`assocReplace`. -/
theorem mem_assocReplace_of_ne {α : Type} {m : List (String × α)} {k : String} {v : α}
    {p : String × α} (hp : p ∈ m) (hk : p.1 ≠ k) : p ∈ assocReplace m k v := by
  induction m with
  | nil => simp at hp
  | cons q rest ih =>
    rw [assocReplace]
    rcases List.mem_cons.mp hp with h | h
    · subst h
      simp only [hk, if_neg, not_false_iff, if_false]
      exact List.mem_cons_self _ _
    · by_cases hq : q.1 = k
      · simp only [hq, if_pos]
        exact List.mem_cons_of_mem _ h
      · simp only [hq, if_neg, not_false_iff, if_false]
        exact List.mem_cons_of_mem _ (ih h)

/-- When the key is present, `assocReplace` contains the new binding. -/
theorem mem_assocReplace_self {α : Type} {m : List (String × α)} {k : String} (v : α)
    (h : k ∈ m.map Prod.fst) : (k, v) ∈ assocReplace m k v := by
  induction m with
  | nil => simp at h
  | cons q rest ih =>
    rw [assocReplace]
    by_cases hq : q.1 = k
    · simp only [hq, if_pos]
      exact hq ▸ List.mem_cons_self _ _
    · simp only [hq, if_neg, not_false_iff, if_false]
      rw [List.map_cons, List.mem_cons] at h
      rcases h with h | h
      · exact absurd h.symm hq
      · exact List.mem_cons_of_mem _ (ih h)

/-- The invariant carried through `_dedupe_images`' fold: every binding maps
an identity to one of its URLs, keys are distinct, every processed URL is
covered by a binding of its identity with at least its length, and every
binding's URL is a processed URL. -/
def DedupInv (processed : List String) (m : List (String × String)) : Prop :=
  (∀ p ∈ m, imageDedupIdentity p.2 = p.1 ∧ p.2 ∈ processed) ∧
  (m.map Prod.fst).Nodup ∧
  (∀ u ∈ processed, ∃ p ∈ m, p.1 = imageDedupIdentity u ∧ u.length ≤ p.2.length)

/-- Each step of the fold preserves the invariant, lengthening the processed
prefix by the inserted URL. -/
theorem dedupeInsert_inv {processed : List String} {m : List (String × String)}
    (h : DedupInv processed m) (u : String) :
    DedupInv (processed ++ [u]) (dedupeInsert m u) := by
  obtain ⟨hmap, hnd, hcov⟩ := h
  rw [dedupeInsert]
  match hf : assocFind m (imageDedupIdentity u) with
  | none =>
    refine ⟨?_, ?_, ?_⟩
    · intro p hp
      rcases List.mem_append.mp hp with h' | h'
      · exact ⟨(hmap p h').1, List.mem_append_left _ (hmap p h').2⟩
      · simp at h'
        subst h'
        exact ⟨rfl, List.mem_append_right _ (by simp)⟩
    · rw [List.map_append]
      simp only [List.map_cons, List.map_nil]
      rw [List.nodup_append]
      exact ⟨hnd, by simp, by
        simp only [List.mem_singleton, List.disjoint_singleton]
        exact assocFind_eq_none_iff.mp hf⟩
    · intro w hw
      rcases List.mem_append.mp hw with h' | h'
      · obtain ⟨p, hp, h1, h2⟩ := hcov w h'
        exact ⟨p, List.mem_append_left _ hp, h1, h2⟩
      · simp at h'
        subst h'
        exact ⟨(imageDedupIdentity w, w), List.mem_append_right _ (by simp), rfl, le_refl _⟩
  | some cur =>
    by_cases hlen : cur.length < u.length
    · simp only [hlen, if_pos]
      have hmem : imageDedupIdentity u ∈ m.map Prod.fst :=
        List.mem_map_of_mem Prod.fst (assocFind_mem hf)
      refine ⟨?_, ?_, ?_⟩
      · intro p hp
        rcases assocReplace_mem hp with h' | h'
        · exact ⟨(hmap p h').1, List.mem_append_left _ (hmap p h').2⟩
        · subst h'
          exact ⟨rfl, List.mem_append_right _ (by simp)⟩
      · rw [assocReplace_keys]; exact hnd
      · intro w hw
        rcases List.mem_append.mp hw with h' | h'
        · obtain ⟨p, hp, h1, h2⟩ := hcov w h'
          by_cases hpk : p.1 = imageDedupIdentity u
          · have hcur : p.2 = cur := assocFind_unique hnd (hpk ▸ hf) (by
              have : p = (p.1, p.2) := rfl
              rw [this] at hp
              exact hpk ▸ hp)
            refine ⟨(imageDedupIdentity u, u), mem_assocReplace_self u hmem, hpk ▸ h1, ?_⟩
            calc w.length ≤ p.2.length := h2
              _ = cur.length := by rw [hcur]
              _ ≤ u.length := le_of_lt hlen
          · exact ⟨p, mem_assocReplace_of_ne hp hpk, h1, h2⟩
        · simp at h'
          subst h'
          exact ⟨(imageDedupIdentity w, w), mem_assocReplace_self w hmem, rfl, le_refl _⟩
    · simp only [hlen, if_neg, not_false_iff, if_false]
      refine ⟨?_, hnd, ?_⟩
      · intro p hp
        exact ⟨(hmap p hp).1, List.mem_append_left _ (hmap p hp).2⟩
      · intro w hw
        rcases List.mem_append.mp hw with h' | h'
        · obtain ⟨p, hp, h1, h2⟩ := hcov w h'
          exact ⟨p, hp, h1, h2⟩
        · simp at h'
          subst h'
          refine ⟨(imageDedupIdentity w, cur), assocFind_mem hf, rfl, ?_⟩
          show w.length ≤ cur.length
          omega

/-- The invariant holds of the whole fold. -/
theorem dedupe_fold_inv :
    ∀ (urls : List String) (processed : List String) (m : List (String × String)),
      DedupInv processed m →
      DedupInv (processed ++ urls) (urls.foldl dedupeInsert m) := by
  intro urls
  induction urls with
  | nil => intro processed m h; simpa using h
  | cons u us ih =>
    intro processed m h
    rw [List.foldl_cons]
    have := ih (processed ++ [u]) (dedupeInsert m u) (dedupeInsert_inv h u)
    simpa using this

/-- **C6** — `_dedupe_images` groups URLs by the identity obtained by
stripping the query string and removing `-`/`_`-introduced resolution-marker
segments (dimension markers like `-100x100` and the words
thumb/small/medium/max/large/original, case-insensitively), and keeps exactly
one URL per identity group: every output URL comes from the input, output
identities are pairwise distinct, and every input URL has an output
representative of its identity group whose length is maximal (at least the
length of every member, the first such member being kept). -/
theorem dedupe_images_spec :
    ∀ urls : List String,
      (∀ u ∈ _dedupe_images urls, u ∈ urls) ∧
      (_dedupe_images urls).Pairwise
        (fun a b => imageDedupIdentity a ≠ imageDedupIdentity b) ∧
      (∀ u ∈ urls, ∃ v ∈ _dedupe_images urls,
        imageDedupIdentity v = imageDedupIdentity u ∧ u.length ≤ v.length) := by
  intro urls
  by_cases hemp : urls.isEmpty
  · rw [List.isEmpty_iff.mp hemp]
    simp [_dedupe_images]
  · have hinv : DedupInv urls (urls.foldl dedupeInsert []) := by
      have := dedupe_fold_inv urls [] [] ⟨by simp, by simp, by simp⟩
      simpa using this
    obtain ⟨hmap, hnd, hcov⟩ := hinv
    have hres : _dedupe_images urls = (urls.foldl dedupeInsert []).map Prod.snd := by
      rw [_dedupe_images, if_neg (by simp [hemp])]
    refine ⟨?_, ?_, ?_⟩
    · intro u hu
      rw [hres] at hu
      obtain ⟨p, hp, hpu⟩ := List.mem_map.mp hu
      exact hpu ▸ (hmap p hp).2
    · rw [hres, List.pairwise_map]
      have hkeys : (urls.foldl dedupeInsert []).Pairwise (fun p q => p.1 ≠ q.1) := by
        rw [← List.pairwise_map (f := Prod.fst)]
        exact hnd
      refine hkeys.imp_of_mem ?_
      intro p q hp hq hne
      rw [(hmap p hp).1, (hmap q hq).1]
      exact hne
    · intro u hu
      obtain ⟨p, hp, h1, h2⟩ := hcov u hu
      refine ⟨p.2, ?_, ?_, h2⟩
      · rw [hres]
        exact List.mem_map_of_mem Prod.snd hp
      · rw [(hmap p hp).1, h1]

/-! ## Lemmas for the variant-upgrade map -/

/-- `assocFind` over an appended list falls through to the right part. -/
theorem assocFind_append {α : Type} (m m' : List (String × α)) (k : String) :
    assocFind (m ++ m') k
      = match assocFind m k with
        | some v => some v
        | none => assocFind m' k := by
  induction m with
  | nil => simp [assocFind]
  | cons p rest ih =>
    rw [List.cons_append, assocFind, assocFind]
    by_cases hk : p.1 = k
    · simp [hk]
    · simp only [hk, if_neg, not_false_iff, if_false]
      exact ih

/-- Replacing a present key makes `assocFind` return the new value. -/
theorem assocFind_assocReplace_self {α : Type} {m : List (String × α)} {k : String}
    (v : α) (h : k ∈ m.map Prod.fst) :
    assocFind (assocReplace m k v) k = some v := by
  induction m with
  | nil => simp at h
  | cons p rest ih =>
    rw [assocReplace]
    by_cases hp : p.1 = k
    · simp [assocFind, hp]
    · simp only [hp, if_neg, not_false_iff, if_false, assocFind]
      rw [List.map_cons, List.mem_cons] at h
      rcases h with h | h
      · exact absurd h.symm hp
      · exact ih h

/-- Replacing one key leaves other lookups unchanged. -/
theorem assocFind_assocReplace_ne {α : Type} {m : List (String × α)} {k k' : String}
    (v : α) (h : k' ≠ k) :
    assocFind (assocReplace m k v) k' = assocFind m k' := by
  induction m with
  | nil => rfl
  | cons p rest ih =>
    rw [assocReplace]
    by_cases hp : p.1 = k
    · simp only [hp, if_pos]
      have hkk : ¬ (k = k') := fun hh => h hh.symm
      rw [assocFind, assocFind]
      simp only [hkk, if_neg, not_false_iff, if_false, hp]
    · simp only [hp, if_neg, not_false_iff, if_false, assocFind]
      by_cases hpk : p.1 = k'
      · simp [hpk]
      · simp only [hpk, if_neg, not_false_iff, if_false]
        exact ih

/-- `idBestStep` on a falsy candidate is the identity. -/
theorem idBestStep_empty {m : List (String × String)} {u : String} (h : u = "") :
    idBestStep m u = m := by
  simp [idBestStep, h]

/-- `idBestStep` on a candidate without identity is the identity. -/
theorem idBestStep_noid {m : List (String × String)} {u : String} (h : u ≠ "")
    (hid : _image_identity u = none) : idBestStep m u = m := by
  simp [idBestStep, h, hid]

/-- `idBestStep` appends a binding for a fresh identity. -/
theorem idBestStep_new {m : List (String × String)} {u uid : String} (h : u ≠ "")
    (hid : _image_identity u = some uid) (hf : assocFind m uid = none) :
    idBestStep m u = m ++ [(uid, u)] := by
  simp [idBestStep, h, hid, hf]

/-- `idBestStep` replaces the stored URL on a strictly better score. -/
theorem idBestStep_replace {m : List (String × String)} {u uid cur : String} (h : u ≠ "")
    (hid : _image_identity u = some uid) (hf : assocFind m uid = some cur)
    (hsc : _resolution_score cur < _resolution_score u) :
    idBestStep m u = assocReplace m uid u := by
  simp [idBestStep, h, hid, hf, hsc]

/-- `idBestStep` keeps the stored URL otherwise. -/
theorem idBestStep_keep {m : List (String × String)} {u uid cur : String} (h : u ≠ "")
    (hid : _image_identity u = some uid) (hf : assocFind m uid = some cur)
    (hsc : ¬ _resolution_score cur < _resolution_score u) :
    idBestStep m u = m := by
  simp [idBestStep, h, hid, hf, hsc]

/-- The invariant of `buildIdBest`'s fold: every stored URL is a processed,
non-empty candidate carrying its key as identity, and every processed
non-empty candidate with an identity is dominated (in resolution score) by
the stored URL of that identity. -/
def IdBestInv (processed : List String) (m : List (String × String)) : Prop :=
  (∀ ident u, assocFind m ident = some u →
    u ∈ processed ∧ u ≠ "" ∧ _image_identity u = some ident) ∧
  (∀ u ∈ processed, u ≠ "" → ∀ ident, _image_identity u = some ident →
    ∃ b, assocFind m ident = some b ∧ _resolution_score u ≤ _resolution_score b)

/-- Weakening: growing the processed prefix preserves the store half. -/
theorem idBestInv_extend_store {processed : List String} {m : List (String × String)}
    (h : ∀ ident u, assocFind m ident = some u →
      u ∈ processed ∧ u ≠ "" ∧ _image_identity u = some ident) (w : String) :
    ∀ ident u, assocFind m ident = some u →
      u ∈ processed ++ [w] ∧ u ≠ "" ∧ _image_identity u = some ident := by
  intro ident u hu
  obtain ⟨h1, h2, h3⟩ := h ident u hu
  exact ⟨List.mem_append_left _ h1, h2, h3⟩

/-- One candidate step preserves the `buildIdBest` invariant. -/
theorem idBestStep_inv {processed : List String} {m : List (String × String)}
    (h : IdBestInv processed m) (u : String) :
    IdBestInv (processed ++ [u]) (idBestStep m u) := by
  obtain ⟨hstore, hdom⟩ := h
  by_cases hu : u = ""
  · rw [idBestStep_empty hu]
    refine ⟨idBestInv_extend_store hstore u, ?_⟩
    intro w hw hne ident hid
    rcases List.mem_append.mp hw with h' | h'
    · exact hdom w h' hne ident hid
    · simp at h'
      subst h'
      exact absurd rfl (hu ▸ hne)
  · match hiu : _image_identity u with
    | none =>
      rw [idBestStep_noid hu hiu]
      refine ⟨idBestInv_extend_store hstore u, ?_⟩
      intro w hw hne ident hid
      rcases List.mem_append.mp hw with h' | h'
      · exact hdom w h' hne ident hid
      · simp at h'
        subst h'
        rw [hiu] at hid
        cases hid
    | some uid =>
      match hf : assocFind m uid with
      | none =>
        rw [idBestStep_new hu hiu hf]
        refine ⟨?_, ?_⟩
        · intro ident w hw
          rw [assocFind_append] at hw
          match hfm : assocFind m ident with
          | some x =>
            rw [hfm] at hw
            have hxw : x = w := by injection hw
            rw [← hxw]
            exact idBestInv_extend_store hstore u ident x hfm
          | none =>
            rw [hfm] at hw
            simp only [assocFind] at hw
            by_cases hi : uid = ident
            · simp only [hi, if_pos] at hw
              cases hw
              exact ⟨List.mem_append_right _ (by simp), hu, hi ▸ hiu⟩
            · simp only [hi, if_neg, not_false_iff, if_false, assocFind] at hw
              exact Option.noConfusion hw
        · intro w hw hne ident hid
          rcases List.mem_append.mp hw with h' | h'
          · obtain ⟨b, hb1, hb2⟩ := hdom w h' hne ident hid
            refine ⟨b, ?_, hb2⟩
            rw [assocFind_append, hb1]
          · simp at h'
            subst h'
            rw [hiu] at hid
            cases hid
            refine ⟨w, ?_, le_refl _⟩
            rw [assocFind_append, hf]
            simp [assocFind]
      | some cur =>
        by_cases hsc : _resolution_score cur < _resolution_score u
        · rw [idBestStep_replace hu hiu hf hsc]
          have hmem : uid ∈ m.map Prod.fst :=
            List.mem_map_of_mem Prod.fst (assocFind_mem hf)
          refine ⟨?_, ?_⟩
          · intro ident w hw
            by_cases hi : ident = uid
            · subst hi
              rw [assocFind_assocReplace_self u hmem] at hw
              cases hw
              exact ⟨List.mem_append_right _ (by simp), hu, hiu⟩
            · rw [assocFind_assocReplace_ne u hi] at hw
              exact idBestInv_extend_store hstore u ident w hw
          · intro w hw hne ident hid
            rcases List.mem_append.mp hw with h' | h'
            · obtain ⟨b, hb1, hb2⟩ := hdom w h' hne ident hid
              by_cases hi : ident = uid
              · subst hi
                rw [hf] at hb1
                cases hb1
                exact ⟨u, assocFind_assocReplace_self u hmem,
                  le_of_lt (lt_of_le_of_lt hb2 hsc)⟩
              · refine ⟨b, ?_, hb2⟩
                rw [assocFind_assocReplace_ne u hi]
                exact hb1
            · simp at h'
              subst h'
              rw [hiu] at hid
              cases hid
              exact ⟨w, assocFind_assocReplace_self w hmem, le_refl _⟩
        · rw [idBestStep_keep hu hiu hf hsc]
          refine ⟨idBestInv_extend_store hstore u, ?_⟩
          intro w hw hne ident hid
          rcases List.mem_append.mp hw with h' | h'
          · exact hdom w h' hne ident hid
          · simp at h'
            subst h'
            rw [hiu] at hid
            cases hid
            exact ⟨cur, hf, le_of_not_lt hsc⟩

/-- The `buildIdBest` invariant holds of the whole fold. -/
theorem buildIdBest_inv :
    ∀ (cands processed : List String) (m : List (String × String)),
      IdBestInv processed m →
      IdBestInv (processed ++ cands) (cands.foldl idBestStep m) := by
  intro cands
  induction cands with
  | nil => intro processed m h; simpa using h
  | cons u us ih =>
    intro processed m h
    rw [List.foldl_cons]
    have := ih (processed ++ [u]) _ (idBestStep_inv h u)
    simpa using this

/-- Every binding of `buildIdBest` stores a non-empty candidate whose
identity is its key. -/
theorem buildIdBest_store {cands : List String} {ident u : String}
    (h : assocFind (buildIdBest cands) ident = some u) :
    u ∈ cands ∧ u ≠ "" ∧ _image_identity u = some ident := by
  have hinv := buildIdBest_inv cands [] []
    ⟨fun _ _ h' => by simp [assocFind] at h', by simp⟩
  simp only [List.nil_append] at hinv
  exact hinv.1 ident u h

/-- Every non-empty candidate with an identity is dominated by that
identity's stored binding. -/
theorem buildIdBest_dom {cands : List String} {u ident : String}
    (hu : u ∈ cands) (hne : u ≠ "") (hid : _image_identity u = some ident) :
    ∃ b, assocFind (buildIdBest cands) ident = some b ∧
      _resolution_score u ≤ _resolution_score b := by
  have hinv := buildIdBest_inv cands [] []
    ⟨fun _ _ h' => by simp [assocFind] at h', by simp⟩
  simp only [List.nil_append] at hinv
  exact hinv.2 u hu hne ident hid

/-- The replacement condition of the claim: the variant is a dict whose
current `image_url` is a non-empty string with an asset identity, and some
non-empty candidate shares that identity with a strictly higher resolution
score. -/
def VariantReplaceable (cands : List String) (v : Json) : Prop :=
  ∃ vf cur ident c, v = .obj vf ∧ jGetD vf "image_url" = .str cur ∧ cur ≠ "" ∧
    _image_identity cur = some ident ∧ c ∈ cands ∧ c ≠ "" ∧
    _image_identity c = some ident ∧ _resolution_score cur < _resolution_score c

/-- The claim, per variant: the variant is left unchanged exactly when no
candidate shares its URL's identity with a strictly higher score; otherwise
its `image_url` is replaced by a candidate of that identity whose score is
strictly higher than the current one and maximal among the identity's
candidates. -/
def VariantUpgradeSpec (cands : List String) (v v' : Json) : Prop :=
  (¬ VariantReplaceable cands v ∧ v' = v) ∨
  (∃ vf cur ident b, v = .obj vf ∧ jGetD vf "image_url" = .str cur ∧ cur ≠ "" ∧
    _image_identity cur = some ident ∧ b ∈ cands ∧
    _image_identity b = some ident ∧ _resolution_score cur < _resolution_score b ∧
    (∀ c ∈ cands, c ≠ "" → _image_identity c = some ident →
      _resolution_score c ≤ _resolution_score b) ∧
    v' = .obj (tsSet vf "image_url" (.str b)))

/-- The loop body satisfies the per-variant claim against the built map. -/
theorem upgradeVariantOne_spec (cands : List String) (v : Json) :
    VariantUpgradeSpec cands v (upgradeVariantOne (buildIdBest cands) v) := by
  match v with
  | .null | .bool _ | .num _ | .str _ | .arr _ =>
    left
    refine ⟨?_, rfl⟩
    rintro ⟨vf, cur, ident, c, hveq, -⟩
    cases hveq
  | .obj vf =>
    match hget : jGetD vf "image_url" with
    | .null | .bool _ | .num _ | .arr _ | .obj _ =>
      have hv' : upgradeVariantOne (buildIdBest cands) (.obj vf) = .obj vf := by
        simp only [upgradeVariantOne, hget]
      rw [hv']
      left
      refine ⟨?_, rfl⟩
      rintro ⟨vf', cur', ident, c, hveq, hget', -⟩
      cases hveq
      rw [hget] at hget'
      cases hget'
    | .str cur =>
      by_cases hcur : cur = ""
      · have hv' : upgradeVariantOne (buildIdBest cands) (.obj vf) = .obj vf := by
          simp only [upgradeVariantOne, hget, hcur, if_pos]
        rw [hv']
        left
        refine ⟨?_, rfl⟩
        rintro ⟨vf', cur', ident, c, hveq, hget', hne', -⟩
        cases hveq
        rw [hget] at hget'
        injection hget' with hc'
        exact hne' (by rw [← hc', hcur])
      · match hid : _image_identity cur with
        | none =>
          have hv' : upgradeVariantOne (buildIdBest cands) (.obj vf) = .obj vf := by
            simp only [upgradeVariantOne, hget, hcur, hid, if_neg, not_false_iff, if_false]
          rw [hv']
          left
          refine ⟨?_, rfl⟩
          rintro ⟨vf', cur', ident, c, hveq, hget', hne', hid', -⟩
          cases hveq
          rw [hget] at hget'
          injection hget' with hc'
          rw [← hc', hid] at hid'
          cases hid'
        | some ident =>
          match hf : assocFind (buildIdBest cands) ident with
          | none =>
            have hv' : upgradeVariantOne (buildIdBest cands) (.obj vf) = .obj vf := by
              simp only [upgradeVariantOne, hget, hcur, hid, hf, if_neg, not_false_iff,
                if_false]
            rw [hv']
            left
            refine ⟨?_, rfl⟩
            rintro ⟨vf', cur', ident', c, hveq, hget', hne', hid', hcmem, hcne, hcid, hsc⟩
            cases hveq
            rw [hget] at hget'
            injection hget' with hc'
            subst hc'
            rw [hid] at hid'
            injection hid' with hi'
            subst hi'
            obtain ⟨b, hb, -⟩ := buildIdBest_dom hcmem hcne hcid
            rw [hf] at hb
            cases hb
          | some best =>
            by_cases hlt : _resolution_score cur < _resolution_score best
            · have hv' : upgradeVariantOne (buildIdBest cands) (.obj vf)
                  = .obj (tsSet vf "image_url" (.str best)) := by
                simp only [upgradeVariantOne, hget, hcur, hid, hf, hlt, if_pos, if_neg,
                  not_false_iff, if_false]
              rw [hv']
              right
              obtain ⟨hbmem, hbne, hbid⟩ := buildIdBest_store hf
              refine ⟨vf, cur, ident, best, rfl, hget, hcur, hid, hbmem, hbid, hlt, ?_, rfl⟩
              intro c hc hcne hcid
              obtain ⟨b', hb', hcb'⟩ := buildIdBest_dom hc hcne hcid
              rw [hf] at hb'
              injection hb' with hb''
              rw [hb'']
              exact hcb'
            · have hv' : upgradeVariantOne (buildIdBest cands) (.obj vf) = .obj vf := by
                simp only [upgradeVariantOne, hget, hcur, hid, hf, hlt, if_neg,
                  not_false_iff, if_false]
              rw [hv']
              left
              refine ⟨?_, rfl⟩
              rintro ⟨vf', cur', ident', c, hveq, hget', hne', hid', hcmem, hcne, hcid, hsc⟩
              cases hveq
              rw [hget] at hget'
              injection hget' with hc'
              subst hc'
              rw [hid] at hid'
              injection hid' with hi'
              subst hi'
              obtain ⟨b', hb', hcb'⟩ := buildIdBest_dom hcmem hcne hcid
              rw [hf] at hb'
              injection hb' with hb''
              subst hb''
              exact hlt (lt_of_lt_of_le hsc hcb')

/-- **C5** — For every truth sheet whose `variants` value is a non-empty
list and every non-empty raw candidate list, `upgrade_variant_urls` rewrites
exactly the `variants` binding, pointwise: a variant's `image_url` is
replaced precisely when some candidate shares the URL's asset identity with a
strictly higher resolution score, and the substitute is a candidate of that
identity with maximal score (itself strictly better than the current URL);
variants whose `image_url` has no identity match among the candidates — and
non-dict or URL-less variants — keep their current value. -/
theorem upgrade_variant_urls_spec :
    ∀ (tf : List (String × Json)) (cands : List String) (vs : List Json),
      jGetD tf "variants" = .arr vs → vs ≠ [] → cands ≠ [] →
      ∃ vs', upgrade_variant_urls (.obj tf) cands
          = .ok (.obj (tsSet tf "variants" (.arr vs'))) ∧
        List.Forall₂ (VariantUpgradeSpec cands) vs vs' := by
  intro tf cands vs hv hvs hc
  refine ⟨vs.map (upgradeVariantOne (buildIdBest cands)), ?_, ?_⟩
  · have htr : truthy (.arr vs) = true := by
      simp [truthy, hvs]
    have hce : cands.isEmpty = false := by
      simp [hc]
    simp only [upgrade_variant_urls, hv, pyOr, htr, if_pos, hce, Bool.not_true,
      Bool.false_or, Bool.false_eq_true, not_false_iff, if_false]
  · clear hv hvs hc
    induction vs with
    | nil => exact List.Forall₂.nil
    | cons v vs ih =>
      exact List.Forall₂.cons (upgradeVariantOne_spec cands v) ih

/-- Witness for the hypotheses of `upgrade_variant_urls_spec`: a one-variant
sheet whose thumbnail URL shares its UUID identity with a higher-scored
candidate. -/
theorem upgrade_variant_urls_spec_witness :
    ∃ vs', upgrade_variant_urls
        (.obj [("variants", .arr [.obj [("image_url",
          .str "https://c.cdn/u_9ddf04c7-1111-2222-3333-444455556666-thumb.jpg")]])])
        ["https://c.cdn/u_9ddf04c7-1111-2222-3333-444455556666-large.jpg"]
        = .ok (.obj (tsSet
            [("variants", .arr [.obj [("image_url",
              .str "https://c.cdn/u_9ddf04c7-1111-2222-3333-444455556666-thumb.jpg")]])]
            "variants" (.arr vs'))) ∧
      List.Forall₂ (VariantUpgradeSpec
          ["https://c.cdn/u_9ddf04c7-1111-2222-3333-444455556666-large.jpg"])
        [.obj [("image_url",
          .str "https://c.cdn/u_9ddf04c7-1111-2222-3333-444455556666-thumb.jpg")]] vs' :=
  upgrade_variant_urls_spec
    [("variants", .arr [.obj [("image_url",
      .str "https://c.cdn/u_9ddf04c7-1111-2222-3333-444455556666-thumb.jpg")]])]
    ["https://c.cdn/u_9ddf04c7-1111-2222-3333-444455556666-large.jpg"]
    [.obj [("image_url",
      .str "https://c.cdn/u_9ddf04c7-1111-2222-3333-444455556666-thumb.jpg")]]
    rfl (List.cons_ne_nil _ _) (List.cons_ne_nil _ _)

/-! ## Lemmas for the truth sheet's key set -/

/-- The ten keys of the truth-sheet dict literal, in declaration order. -/
def tsKeyList : List String :=
  ["name", "price", "description", "key_features", "image_urls", "video_url",
   "category", "brand", "colors", "variants"]

/-- Assigning to a present key leaves the key list unchanged. -/
theorem tsSet_keys_of_mem {s : List (String × Json)} {k : String} (v : Json)
    (h : k ∈ s.map Prod.fst) : (tsSet s k v).map Prod.fst = s.map Prod.fst := by
  induction s with
  | nil => simp at h
  | cons p rest ih =>
    rw [tsSet]
    by_cases hp : p.1 = k
    · simp [hp]
    · rw [List.map_cons, List.mem_cons] at h
      rcases h with h | h
      · exact absurd h.symm hp
      · simp [hp, ih h]

/-- Assigning to one of the ten keys keeps the key list equal to the ten
keys. -/
theorem keys_tsSet_pres {s : List (String × Json)} {k : String} (v : Json)
    (hk : k ∈ tsKeyList) (hs : s.map Prod.fst = tsKeyList) :
    (tsSet s k v).map Prod.fst = tsKeyList := by
  rw [tsSet_keys_of_mem v (by rw [hs]; exact hk)]
  exact hs

/-- The truth sheet built from the selected JSON-LD object has exactly the
ten keys. -/
theorem buildTruthSheet_keys (kvs : List (String × Json)) (meta : List (String × String)) :
    (buildTruthSheet kvs meta).map Prod.fst = tsKeyList := by
  rw [buildTruthSheet]
  split
  · exact keys_tsSet_pres _ (by decide) (keys_tsSet_pres _ (by decide)
      (keys_tsSet_pres _ (by decide) (keys_tsSet_pres _ (by decide)
        (keys_tsSet_pres _ (by decide) (keys_tsSet_pres _ (by decide)
          (keys_tsSet_pres _ (by decide) (keys_tsSet_pres _ (by decide) rfl)))))))
  · exact keys_tsSet_pres _ (by decide) (keys_tsSet_pres _ (by decide)
      (keys_tsSet_pres _ (by decide) (keys_tsSet_pres _ (by decide)
        (keys_tsSet_pres _ (by decide) (keys_tsSet_pres _ (by decide)
          (keys_tsSet_pres _ (by decide) rfl))))))

/-- The embedded-JSON merge step only reassigns existing keys, so it keeps
the ten keys. -/
theorem mergeStep_keys {s : List (String × Json)} {e : Json}
    {s' : List (String × Json)} (hs : s.map Prod.fst = tsKeyList)
    (h : mergeStep s e = .ok s') : s'.map Prod.fst = tsKeyList := by
  rw [mergeStep] at h
  cases hext : _extract_product_from_embedded e with
  | error m =>
    rw [hext] at h
    simp [bind, Except.bind] at h
  | ok ex =>
    rw [hext] at h
    simp only [bind, Except.bind, pure, Except.pure] at h
    split at h
    · cases h
      exact hs
    · cases h
      repeat' split
      all_goals
        repeat
          first
          | exact hs
          | apply keys_tsSet_pres _ (by decide)

/-- The whole merge loop keeps the ten keys. -/
theorem mergeFold_keys :
    ∀ (l : List Json) (s s' : List (String × Json)),
      s.map Prod.fst = tsKeyList → l.foldlM mergeStep s = .ok s' →
      s'.map Prod.fst = tsKeyList := by
  intro l
  induction l with
  | nil =>
    intro s s' hs h
    simp only [List.foldlM, pure, Except.pure] at h
    cases h
    exact hs
  | cons e es ih =>
    intro s s' hs h
    simp only [List.foldlM] at h
    cases hm : mergeStep s e with
    | error m =>
      rw [hm] at h
      simp [bind, Except.bind] at h
    | ok s2 =>
      rw [hm] at h
      simp only [bind, Except.bind] at h
      exact ih s2 s' (mergeStep_keys hs hm) h

/-- **C3 (counterexample)** — On a document with no structured markup at all
(so every derivation rule leaves its field null or empty, in particular
`variants` with neither `hasVariant` nor a top-level `sku`), the truth sheet
returned by `get_hybrid_context` still carries all ten keys, with `variants`
present as the empty list and `name` present as null — nothing is dropped. -/
theorem truth_sheet_no_pruning_cex :
    (match get_hybrid_context {} "" with
     | .ok c => some c.truth_sheet
     | .error _ => none)
    = some (.obj [("name", .null), ("price", .null), ("description", .null),
                  ("key_features", .arr []), ("image_urls", .arr []),
                  ("video_url", .null), ("category", .null), ("brand", .null),
                  ("colors", .arr []), ("variants", .arr [])]) := rfl

/-- **C3 (amended)** — No final pruning exists: for every input whose
processing succeeds, the truth sheet returned by `get_hybrid_context` is a
dict carrying exactly the ten schema keys, in order — fields left null,
empty-list or empty-object after all derivation rules remain present with
those values rather than being dropped (only the embedded-JSON extraction
helper prunes its own three-key result, which its caller reads back through
truthiness-guarded lookups). -/
theorem get_hybrid_context_keys :
    ∀ (rm : RawMeta) (md : String) (c : HybridCtx),
      get_hybrid_context rm md = .ok c →
      ∃ sheet, c.truth_sheet = .obj sheet ∧ sheet.map Prod.fst = tsKeyList := by
  intro rm md c h
  rw [get_hybrid_context] at h
  cases hsel : selectProductLd rm.json_ld with
  | error m =>
    rw [hsel] at h
    simp [bind, Except.bind] at h
  | ok kvs =>
    rw [hsel] at h
    simp only [bind, Except.bind] at h
    cases hfold : rm.embedded_json.foldlM mergeStep (buildTruthSheet kvs rm.meta) with
    | error m =>
      rw [hfold] at h
      simp [bind, Except.bind] at h
    | ok sheet2 =>
      rw [hfold] at h
      simp only [pure, Except.pure] at h
      cases h
      refine ⟨_, rfl, ?_⟩
      exact keys_tsSet_pres _ (by decide)
        (mergeFold_keys _ _ _ (buildTruthSheet_keys kvs rm.meta) hfold)

/-- Witness for the hypothesis of `get_hybrid_context_keys`: the empty
document's successful run, whose sheet indeed lists the ten keys. -/
theorem get_hybrid_context_keys_witness :
    ∃ sheet, (HybridCtx.mk (.obj [("name", .null), ("price", .null),
        ("description", .null), ("key_features", .arr []), ("image_urls", .arr []),
        ("video_url", .null), ("category", .null), ("brand", .null),
        ("colors", .arr []), ("variants", .arr [])]) "" []).truth_sheet = .obj sheet ∧
      sheet.map Prod.fst = tsKeyList :=
  get_hybrid_context_keys {} ""
    (HybridCtx.mk (.obj [("name", .null), ("price", .null), ("description", .null),
      ("key_features", .arr []), ("image_urls", .arr []), ("video_url", .null),
      ("category", .null), ("brand", .null), ("colors", .arr []),
      ("variants", .arr [])]) "" []) rfl
